import Mathlib

/-! # Singly linked list of `linked_list.c`

The C program manipulates heap-allocated `struct Node` cells through pointers.
The embedding keeps that shape:

* a pointer is `Option Nat` (`none` is `NULL`, `some a` is the address `a`);
* the heap maps every address to the cell allocated there, if any;
* every function takes the program state (heap and what was printed so far)
  and returns the C return value together with the new state, or `none` when
  the C execution would dereference `NULL` or a released cell, or when a loop
  runs out of fuel (one unit per evaluation of a loop condition);
* `int` is `Int`.  The only arithmetic the functions do is `pos - 1` (reached
  only when `pos > 1`) and `i++` (reached only when `i < pos - 1`), so no
  `int` computation of the source can overflow and `Int` agrees with it.

The result `malloc` would return is an argument of the inserting functions:
`none` when the allocation is refused, `some a` for a block at address `a`.
`CreateList` takes the results of its successive `scanf` and `malloc` calls as two
lists.  The files `deletionend.c` and `doubleLL.c` are embedded the same way, in
sections of their own below.

The statements about a list `xs` read as follows.  `isList s.heap head as xs`
says that `head` is a well-formed list in the heap of `s`: following `next` from
`head` one meets the cells `as`, holding the values `xs`, and then `NULL`.  Such a
chain has no cycle (`isList_nodup`) and every list of values has one
(`isList_exists`).  "Allocation succeeding" is `malloc` returning `some a` with
`s.heap a = none`, a cell not in use.  Every result is given for all `fuel` from a
bound on (the length of the list, or one more where a loop also tests the final
`NULL`), so the loops are shown to end.
-/

namespace LinkedList

/-- The cell `struct Node { int data; struct Node *next; }`. -/
structure Node where
  data : Int
  next : Option Nat
deriving DecidableEq

/-- The type `struct Node *`; `none` is `NULL`. -/
abbrev Ptr := Option Nat

/-- The allocated cells, by address. -/
abbrev Heap := Nat → Option Node

/-- The heap with the cell at `a` overwritten. -/
def Heap.set (h : Heap) (a : Nat) (n : Node) : Heap :=
  fun b => if b = a then some n else h b

/-- The heap with the cell at `a` released. -/
def Heap.remove (h : Heap) (a : Nat) : Heap :=
  fun b => if b = a then none else h b

/-- Program state: the heap and the strings printed so far, one per `printf`. -/
structure State where
  heap : Heap
  out : List String

/-- The call `printf(msg)`. -/
def State.print (s : State) (msg : String) : State :=
  { s with out := s.out ++ [msg] }

/-- The read `p->next`; undefined on `NULL` and on a released cell. -/
def getNext (h : Heap) : Ptr → Option Ptr
  | none => none
  | some a => (h a).map Node.next

/-- The read `p->data`; undefined on `NULL` and on a released cell. -/
def getData (h : Heap) : Ptr → Option Int
  | none => none
  | some a => (h a).map Node.data

/-- The write `p->next = q`; undefined on `NULL` and on a released cell. -/
def setNext (h : Heap) (p : Ptr) (q : Ptr) : Option Heap :=
  match p with
  | none => none
  | some a =>
    match h a with
    | none => none
    | some c => some (h.set a { c with next := q })

/-- The call `free(p)` on a non-null pointer; undefined on a released cell. -/
def free (h : Heap) (p : Ptr) : Option Heap :=
  match p with
  | none => some h
  | some a =>
    match h a with
    | none => none
    | some _ => some (h.remove a)

/-- `CreateNode` (linked_list.c:23-34).  `m` is what `malloc` returns. -/
def CreateNode (m : Ptr) (value : Int) (s : State) : Ptr × State :=
  match m with
  | none => (none, s.print "Memory error: could not create node.\n")
  | some a => (some a, { s with heap := s.heap.set a { data := value, next := none } })

/-- `InsertAtStart` (linked_list.c:55-62). -/
def InsertAtStart (m : Ptr) (head : Ptr) (value : Int) (s : State) : Option (Ptr × State) :=
  let (n, s) := CreateNode m value s
  if n = none then some (head, s)
  else do
    let h ← setNext s.heap n head
    some (n, { s with heap := h })

/-- The loop `while (cur->next) cur = cur->next;` of `InsertAtEnd`
(linked_list.c:73-74); returns the final `cur`. -/
def InsertAtEnd.loop (h : Heap) : Nat → Ptr → Option Ptr
  | 0, _ => none
  | fuel + 1, cur => do
    let nx ← getNext h cur
    if nx ≠ none then InsertAtEnd.loop h fuel nx else some cur

/-- `InsertAtEnd` (linked_list.c:65-77). -/
def InsertAtEnd (fuel : Nat) (m : Ptr) (head : Ptr) (value : Int) (s : State) :
    Option (Ptr × State) :=
  let (n, s) := CreateNode m value s
  if n = none then some (head, s)
  else if head = none then some (n, s)
  else do
    let cur ← InsertAtEnd.loop s.heap fuel head
    let h ← setNext s.heap cur n
    some (head, { s with heap := h })

/-- The loop `while (cur->next && i < pos - 1) { cur = cur->next; i++; }`, which
`InsertAtPos` (linked_list.c:86-90) and `DeleteAtPos` (linked_list.c:145-149)
both run; returns the final `cur` (`i` is not read after the loop). -/
def walkToPos (h : Heap) (pos : Int) : Nat → Ptr → Int → Option Ptr
  | 0, _, _ => none
  | fuel + 1, cur, i => do
    let nx ← getNext h cur
    if nx ≠ none ∧ i < pos - 1 then walkToPos h pos fuel nx (i + 1) else some cur

/-- `InsertAtPos` (linked_list.c:80-97). -/
def InsertAtPos (fuel : Nat) (m : Ptr) (head : Ptr) (value : Int) (pos : Int) (s : State) :
    Option (Ptr × State) :=
  if pos ≤ 1 ∨ head = none then InsertAtStart m head value s
  else do
    let cur ← walkToPos s.heap pos fuel head 1
    let (n, s) := CreateNode m value s
    if n = none then some (head, s)
    else do
      let nx ← getNext s.heap cur
      let h ← setNext s.heap n nx
      let h ← setNext h cur n
      some (head, { s with heap := h })

/-- `DeleteFromStart` (linked_list.c:100-110). -/
def DeleteFromStart (head : Ptr) (s : State) : Option (Ptr × State) :=
  if head = none then some (head, s.print "List is empty, nothing to delete.\n")
  else do
    let next ← getNext s.heap head
    let h ← free s.heap head
    some (next, { s with heap := h })

/-- The loop `while (cur->next->next) cur = cur->next;` of `DeleteFromEnd`
(linked_list.c:126-127); returns the final `cur`. -/
def DeleteFromEnd.loop (h : Heap) : Nat → Ptr → Option Ptr
  | 0, _ => none
  | fuel + 1, cur => do
    let nx ← getNext h cur
    let nn ← getNext h nx
    if nn ≠ none then DeleteFromEnd.loop h fuel nx else some cur

/-- `DeleteFromEnd` (linked_list.c:113-131). -/
def DeleteFromEnd (fuel : Nat) (head : Ptr) (s : State) : Option (Ptr × State) :=
  if head = none then some (head, s.print "List is empty, nothing to delete.\n")
  else do
    let nx ← getNext s.heap head
    if nx = none then do
      let h ← free s.heap head
      some (none, { s with heap := h })
    else do
      let cur ← DeleteFromEnd.loop s.heap fuel head
      let last ← getNext s.heap cur
      let h ← free s.heap last
      let h ← setNext h cur none
      some (head, { s with heap := h })

/-- `DeleteAtPos` (linked_list.c:134-159). -/
def DeleteAtPos (fuel : Nat) (head : Ptr) (pos : Int) (s : State) : Option (Ptr × State) :=
  if head = none then some (head, s.print "List is empty, nothing to delete.\n")
  else if pos ≤ 1 then DeleteFromStart head s
  else do
    let cur ← walkToPos s.heap pos fuel head 1
    let to_delete ← getNext s.heap cur
    if to_delete = none then
      some (head, s.print
        ("Position " ++ toString pos ++ " out of range. No deletion performed.\n"))
    else do
      let nn ← getNext s.heap to_delete
      let h ← setNext s.heap cur nn
      let h ← free h to_delete
      some (head, { s with heap := h })

/-- The loop `while (cur->next && cur->next->data != value) cur = cur->next;` of
`DeleteByValue` (linked_list.c:172-173); returns the final `cur`. -/
def DeleteByValue.loop (h : Heap) (value : Int) : Nat → Ptr → Option Ptr
  | 0, _ => none
  | fuel + 1, cur => do
    let nx ← getNext h cur
    if nx = none then some cur
    else do
      let d ← getData h nx
      if d ≠ value then DeleteByValue.loop h value fuel nx else some cur

/-- `DeleteByValue` (linked_list.c:162-183). -/
def DeleteByValue (fuel : Nat) (head : Ptr) (value : Int) (s : State) : Option (Ptr × State) :=
  if head = none then some (head, s.print "List is empty, nothing to delete.\n")
  else do
    let d ← getData s.heap head
    if d = value then DeleteFromStart head s
    else do
      let cur ← DeleteByValue.loop s.heap value fuel head
      let to_delete ← getNext s.heap cur
      if to_delete = none then
        some (head, s.print ("Value " ++ toString value ++ " not found in list.\n"))
      else do
        let nn ← getNext s.heap to_delete
        let h ← setNext s.heap cur nn
        let h ← free h to_delete
        some (head, { s with heap := h })

/-! ## Display, release and bulk construction -/

/-- The loop `while (cur) { printf("%d ", cur->data); cur = cur->next; }` of
`PrintList` (linked_list.c:46-50). -/
def PrintList.loop : Nat → Ptr → State → Option State
  | 0, _, _ => none
  | fuel + 1, cur, s =>
    if cur ≠ none then do
      let d ← getData s.heap cur
      let nx ← getNext s.heap cur
      PrintList.loop fuel nx (s.print (toString d ++ " "))
    else some s

/-- `PrintList` (linked_list.c:37-52); a `void` function, so only the state is
returned. -/
def PrintList (fuel : Nat) (head : Ptr) (s : State) : Option State :=
  if head = none then some (s.print "List is empty.\n")
  else do
    let s ← PrintList.loop fuel head (s.print "List: ")
    some (s.print "\n")

/-- The loop `while (cur) { next = cur->next; free(cur); cur = next; }` of `FreeList`
(linked_list.c:189-194); returns the final heap. -/
def FreeList.loop : Nat → Ptr → Heap → Option Heap
  | 0, _, _ => none
  | fuel + 1, cur, h =>
    if cur ≠ none then do
      let next ← getNext h cur
      let h ← free h cur
      FreeList.loop fuel next h
    else some h

/-- `FreeList` (linked_list.c:186-195); a `void` function taking `head` by value,
so only the state is returned and the caller's pointer is not changed. -/
def FreeList (fuel : Nat) (head : Ptr) (s : State) : Option State := do
  let h ← FreeList.loop fuel head s.heap
  some { s with heap := h }

/-- The `for` loop of `CreateList` (linked_list.c:201-216), entered with counter `i`.
`reads` are the results of the successive `scanf("%d", &val)` calls: `some v` when the
call returns 1 having stored `v`, `none` when it returns anything else; past the end of
`reads` the input is exhausted and `scanf` returns `EOF`.  `mallocs` are the results of
the successive `malloc` calls; past its end the allocation is refused.  Discarding the
rest of an invalid line only changes what later reads would see, and the loop makes
none after it. -/
def CreateList.loop (fuel : Nat) (n : Int) :
    Nat → List (Option Int) → List Ptr → Int → Ptr → State → Option (Ptr × State)
  | 0, _, _, _, _, _ => none
  | k + 1, reads, mallocs, i, head, s =>
    if i < n then
      let s := s.print ("Enter value for node " ++ toString (i + 1) ++ ": ")
      match reads with
      | some val :: reads => do
        let (head, s) ← InsertAtEnd fuel (mallocs.headD none) head val s
        CreateList.loop fuel n k reads mallocs.tail (i + 1) head s
      | _ => some (head, s.print "Invalid input. Stopping creation.\n")
    else some (head, s)

/-- `CreateList` (linked_list.c:198-218). -/
def CreateList (fuel : Nat) (reads : List (Option Int)) (mallocs : List Ptr) (n : Int)
    (s : State) : Option (Ptr × State) :=
  CreateList.loop fuel n fuel reads mallocs 0 none s

/-- The values read before the first invalid reading (the whole list of values when
no reading is invalid). -/
def valuesBeforeInvalid : List (Option Int) → List Int
  | some v :: rest => v :: valuesBeforeInvalid rest
  | _ => []

/-! ## Well-formed lists in the heap -/

/-- `isSeg h p as xs q`: starting at `p` and following `next`, the cells met are
those at the addresses `as`, in this order, they hold the values `xs`, and the
`next` field of the last one is `q` (`p = q` when `as` is empty). -/
def isSeg (h : Heap) : Ptr → List Nat → List Int → Ptr → Prop
  | p, [], [], q => p = q
  | p, a :: as, x :: xs, q =>
    p = some a ∧ (h a).map Node.data = some x ∧ isSeg h ((h a).bind Node.next) as xs q
  | _, [], _ :: _, _ => False
  | _, _ :: _, [], _ => False

/-- `isList h head as xs`: `head` is a well-formed list (a finite chain ending in
`NULL`) whose cells are at the addresses `as` and hold the values `xs`. -/
def isList (h : Heap) (head : Ptr) (as : List Nat) (xs : List Int) : Prop :=
  isSeg h head as xs none

instance isSeg.decidable (h : Heap) :
    (p : Ptr) → (as : List Nat) → (xs : List Int) → (q : Ptr) → Decidable (isSeg h p as xs q)
  | p, [], [], q => inferInstanceAs (Decidable (p = q))
  | p, a :: as, x :: xs, q =>
    have := isSeg.decidable h ((h a).bind Node.next) as xs q
    inferInstanceAs (Decidable (p = some a ∧ (h a).map Node.data = some x ∧
      isSeg h ((h a).bind Node.next) as xs q))
  | _, [], _ :: _, _ => isFalse (fun hf => by simp [isSeg] at hf)
  | _, _ :: _, [], _ => isFalse (fun hf => by simp [isSeg] at hf)

instance isList.decidable (h : Heap) (p : Ptr) (as : List Nat) (xs : List Int) :
    Decidable (isList h p as xs) :=
  isSeg.decidable h p as xs none

/-! ## Fixtures for the concrete instances -/

/-- The heap whose allocated cells are the listed ones (test fixture). -/
def heapOf (cells : List (Nat × Node)) : Heap :=
  fun a => cells.lookup a

/-- The list `[1, 2, 3]` laid out in the cells 10, 20, 30; nothing printed yet. -/
def state123 : State :=
  { heap := heapOf [(10, ⟨1, some 20⟩), (20, ⟨2, some 30⟩), (30, ⟨3, none⟩)], out := [] }

/-- The list `[5, 3, 5, 2]` laid out in the cells 1, 2, 3, 4; nothing printed yet. -/
def state5352 : State :=
  { heap := heapOf [(1, ⟨5, some 2⟩), (2, ⟨3, some 3⟩), (3, ⟨5, some 4⟩), (4, ⟨2, none⟩)],
    out := [] }

/-- The list `[7]` in the cell 1; nothing printed yet. -/
def state7 : State :=
  { heap := heapOf [(1, ⟨7, none⟩)], out := [] }

/-- The empty heap; nothing printed yet. -/
def stateEmpty : State :=
  { heap := heapOf [], out := [] }

end LinkedList

/-! # The stand-alone `deleteAtEnd` of `deletionend.c`

Its `struct Node` is declared exactly as in `linked_list.c`, so the cells, pointers,
heap and state of `LinkedList` are used as they are. -/

namespace DeletionEnd

open LinkedList

/-- The loop `while (temp->next->next != NULL) temp = temp->next;` of `deleteAtEnd`
(deletionend.c:42-45); returns the final `temp`. -/
def deleteAtEnd.loop (h : Heap) : Nat → Ptr → Option Ptr
  | 0, _ => none
  | fuel + 1, temp => do
    let nx ← getNext h temp
    let nn ← getNext h nx
    if nn ≠ none then deleteAtEnd.loop h fuel nx else some temp

/-- `deleteAtEnd` (deletionend.c:24-52). -/
def deleteAtEnd (fuel : Nat) (head : Ptr) (s : State) : Option (Ptr × State) :=
  if head = none then some (head, s.print "The List Is Empty, Nothing To Delete.\n")
  else do
    let nx ← getNext s.heap head
    if nx = none then do
      let h ← free s.heap head
      some (none, { s with heap := h })
    else do
      let temp ← deleteAtEnd.loop s.heap fuel head
      let last ← getNext s.heap temp
      let h ← free s.heap last
      let h ← setNext h temp none
      some (head, { s with heap := h })

end DeletionEnd

/-! # The doubly linked list of `doubleLL.c`

Same conventions as for `linked_list.c`.  The two inserting functions print nothing,
so their state is the heap alone.  `createNode` does not test what `malloc` returns:
a refused allocation makes it write through `NULL`, which is undefined (`none`). -/

namespace DoubleLL

/-- The cell `struct Node { int data; struct Node *next; struct Node *prev; }`. -/
structure Node where
  data : Int
  next : Option Nat
  prev : Option Nat
deriving DecidableEq

/-- The type `Node *`; `none` is `NULL`. -/
abbrev Ptr := Option Nat

/-- The allocated cells, by address. -/
abbrev Heap := Nat → Option Node

/-- The heap with the cell at `a` overwritten. -/
def Heap.set (h : Heap) (a : Nat) (n : Node) : Heap :=
  fun b => if b = a then some n else h b

/-- The read `p->next`; undefined on `NULL` and on a cell that is not allocated. -/
def getNext (h : Heap) : Ptr → Option Ptr
  | none => none
  | some a => (h a).map Node.next

/-- The write `p->next = q`; undefined on `NULL` and on a cell that is not allocated. -/
def setNext (h : Heap) (p : Ptr) (q : Ptr) : Option Heap :=
  match p with
  | none => none
  | some a =>
    match h a with
    | none => none
    | some c => some (h.set a { c with next := q })

/-- The write `p->prev = q`; undefined on `NULL` and on a cell that is not allocated. -/
def setPrev (h : Heap) (p : Ptr) (q : Ptr) : Option Heap :=
  match p with
  | none => none
  | some a =>
    match h a with
    | none => none
    | some c => some (h.set a { c with prev := q })

/-- `createNode` (doubleLL.c:14-21).  `m` is what `malloc` returns. -/
def createNode (m : Ptr) (data : Int) (h : Heap) : Option (Ptr × Heap) :=
  match m with
  | none => none
  | some a => some (some a, h.set a { data := data, next := none, prev := none })

/-- `insertAtBeginning` (doubleLL.c:36-46). -/
def insertAtBeginning (m : Ptr) (head : Ptr) (data : Int) (h : Heap) : Option (Ptr × Heap) := do
  let (newNode, h) ← createNode m data h
  if head = none then some (newNode, h)
  else do
    let h ← setNext h newNode head
    let h ← setPrev h head newNode
    some (newNode, h)

/-- The loop `while (temp->next != NULL) temp = temp->next;` of `insertAtEnd`
(doubleLL.c:57-60); returns the final `temp`. -/
def insertAtEnd.loop (h : Heap) : Nat → Ptr → Option Ptr
  | 0, _ => none
  | fuel + 1, temp => do
    let nx ← getNext h temp
    if nx ≠ none then insertAtEnd.loop h fuel nx else some temp

/-- `insertAtEnd` (doubleLL.c:49-64). -/
def insertAtEnd (fuel : Nat) (m : Ptr) (head : Ptr) (data : Int) (h : Heap) :
    Option (Ptr × Heap) := do
  let (newNode, h) ← createNode m data h
  if head = none then some (newNode, h)
  else do
    let temp ← insertAtEnd.loop h fuel head
    let h ← setNext h temp newNode
    let h ← setPrev h newNode temp
    some (head, h)

/-- The forward view of a heap: every cell without its `prev` field. -/
def forward (h : Heap) : LinkedList.Heap :=
  fun a => (h a).map fun c => { data := c.data, next := c.next }

/-- `isChain h head as xs`: following `next` from `head` one meets the cells `as`,
holding the values `xs`, and then `NULL` (the forward traversal of the list). -/
def isChain (h : Heap) (head : Ptr) (as : List Nat) (xs : List Int) : Prop :=
  LinkedList.isList (forward h) head as xs

instance isChain.decidable (h : Heap) (head : Ptr) (as : List Nat) (xs : List Int) :
    Decidable (isChain h head as xs) :=
  LinkedList.isList.decidable (forward h) head as xs

/-- The back links of the list with cells `as`: the `prev` of the head is `NULL`, and
for every cell `x` with a successor `y`, the `prev` of `y` is `x`. -/
def backLinked (h : Heap) (head : Ptr) (as : List Nat) : Prop :=
  (∀ a ∈ head, (h a).map Node.prev = some none) ∧
  ∀ x ∈ as, ∀ y ∈ (h x).bind Node.next, (h y).map Node.prev = some (some x)

instance backLinked.decidable (h : Heap) (head : Ptr) (as : List Nat) :
    Decidable (backLinked h head as) :=
  inferInstanceAs (Decidable (_ ∧ _))

/-- The heap whose allocated cells are the listed ones (test fixture). -/
def heapOf (cells : List (Nat × Node)) : Heap :=
  fun a => cells.lookup a

/-- The list `[1, 2]` in the cells 10 and 20, with its back links. -/
def heap12 : Heap :=
  heapOf [(10, ⟨1, some 20, none⟩), (20, ⟨2, none, some 10⟩)]

end DoubleLL

namespace LinkedList

/-! ## Heap and segment lemmas -/

@[simp] theorem Heap_set_same (h : Heap) (a : Nat) (n : Node) : h.set a n a = some n := by
  simp [Heap.set]

theorem Heap_set_other (h : Heap) {a b : Nat} (n : Node) (hb : b ≠ a) : h.set a n b = h b := by
  simp [Heap.set, hb]

@[simp] theorem Heap_remove_same (h : Heap) (a : Nat) : h.remove a a = none := by
  simp [Heap.remove]

theorem Heap_remove_other (h : Heap) {a b : Nat} (hb : b ≠ a) : h.remove a b = h b := by
  simp [Heap.remove, hb]

theorem Heap_set_set (h : Heap) (a : Nat) (n n' : Node) : (h.set a n).set a n' = h.set a n' := by
  funext b; by_cases hb : b = a <;> simp [Heap.set, hb]

@[simp] theorem isSeg_nil (h : Heap) (p q : Ptr) : isSeg h p [] [] q ↔ p = q := by
  simp [isSeg]

theorem isSeg_cons (h : Heap) (p q : Ptr) (a : Nat) (as : List Nat) (x : Int) (xs : List Int) :
    isSeg h p (a :: as) (x :: xs) q ↔
      p = some a ∧ ∃ nx, h a = some ⟨x, nx⟩ ∧ isSeg h nx as xs q := by
  simp only [isSeg]
  constructor
  · rintro ⟨hp, hd, hs⟩
    refine ⟨hp, ?_⟩
    cases hc : h a with
    | none => simp [hc] at hd
    | some c =>
      obtain ⟨d, nx⟩ := c
      simp [hc] at hd hs
      exact ⟨nx, by simp [hd], hs⟩
  · rintro ⟨hp, nx, hc, hs⟩
    simp [hp, hc, hs]

theorem isSeg_length {h : Heap} : ∀ {as : List Nat} {xs : List Int} {p q : Ptr},
    isSeg h p as xs q → as.length = xs.length
  | [], [], _, _, _ => rfl
  | [], _ :: _, _, _, hs => by simp [isSeg] at hs
  | _ :: _, [], _, _, hs => by simp [isSeg] at hs
  | a :: as, x :: xs, p, q, hs => by
    obtain ⟨_, nx, _, ht⟩ := (isSeg_cons h p q a as x xs).1 hs
    simp [isSeg_length ht]

/-- A segment only depends on the cells it goes through. -/
theorem isSeg_congr {h h' : Heap} : ∀ {as : List Nat} {xs : List Int} {p q : Ptr},
    (∀ b ∈ as, h' b = h b) → isSeg h p as xs q → isSeg h' p as xs q
  | [], [], _, _, _, hs => hs
  | [], _ :: _, _, _, _, hs => by simp [isSeg] at hs
  | _ :: _, [], _, _, _, hs => by simp [isSeg] at hs
  | a :: as, x :: xs, p, q, hh, hs => by
    obtain ⟨hp, nx, hc, ht⟩ := (isSeg_cons h p q a as x xs).1 hs
    refine (isSeg_cons h' p q a as x xs).2 ⟨hp, nx, ?_, ?_⟩
    · rw [hh a (by simp), hc]
    · exact isSeg_congr (fun b hb => hh b (by simp [hb])) ht

/-- Every cell of a segment is allocated. -/
theorem isSeg_alloc {h : Heap} : ∀ {as : List Nat} {xs : List Int} {p q : Ptr},
    isSeg h p as xs q → ∀ b ∈ as, h b ≠ none
  | [], _, _, _, _, b, hb => by simp at hb
  | _ :: _, [], _, _, hs, _, _ => by simp [isSeg] at hs
  | a :: as, x :: xs, p, q, hs, b, hb => by
    obtain ⟨_, nx, hc, ht⟩ := (isSeg_cons h p q a as x xs).1 hs
    rcases List.mem_cons.1 hb with rfl | hb
    · simp [hc]
    · exact isSeg_alloc ht b hb

theorem isSeg_append {h : Heap} : ∀ {as : List Nat} {xs : List Int} {p m : Ptr}
    {bs : List Nat} {ys : List Int} {q : Ptr},
    isSeg h p as xs m → isSeg h m bs ys q → isSeg h p (as ++ bs) (xs ++ ys) q
  | [], [], _, _, _, _, _, h1, h2 => by
    simp at h1; subst h1; simpa using h2
  | [], _ :: _, _, _, _, _, _, h1, _ => by simp [isSeg] at h1
  | _ :: _, [], _, _, _, _, _, h1, _ => by simp [isSeg] at h1
  | a :: as, x :: xs, p, m, bs, ys, q, h1, h2 => by
    obtain ⟨hp, nx, hc, ht⟩ := (isSeg_cons h p m a as x xs).1 h1
    exact (isSeg_cons h p q a (as ++ bs) x (xs ++ ys)).2 ⟨hp, nx, hc, isSeg_append ht h2⟩

/-- A segment can be cut after any number of cells. -/
theorem isSeg_split {h : Heap} : ∀ (k : Nat) {as : List Nat} {xs : List Int} {p q : Ptr},
    isSeg h p as xs q →
      ∃ m, isSeg h p (as.take k) (xs.take k) m ∧ isSeg h m (as.drop k) (xs.drop k) q
  | 0, as, xs, p, q, hs => ⟨p, by simp, by simpa using hs⟩
  | k + 1, [], [], p, q, hs => ⟨p, by simp, by simpa using hs⟩
  | _ + 1, [], _ :: _, _, _, hs => by simp [isSeg] at hs
  | _ + 1, _ :: _, [], _, _, hs => by simp [isSeg] at hs
  | k + 1, a :: as, x :: xs, p, q, hs => by
    obtain ⟨hp, nx, hc, ht⟩ := (isSeg_cons h p q a as x xs).1 hs
    obtain ⟨m, h1, h2⟩ := isSeg_split k ht
    exact ⟨m, (isSeg_cons h p m a _ x _).2 ⟨hp, nx, hc, h1⟩, by simpa using h2⟩

/-- A pointer is the head of at most one list. -/
theorem isList_unique {h : Heap} : ∀ {as as' : List Nat} {xs xs' : List Int} {p : Ptr},
    isList h p as xs → isList h p as' xs' → as = as' ∧ xs = xs'
  | [], [], [], [], _, _, _ => ⟨rfl, rfl⟩
  | [], _, _ :: _, _, _, h1, _ => by simp [isList, isSeg] at h1
  | _ :: _, _, [], _, _, h1, _ => by simp [isList, isSeg] at h1
  | _, [], _, _ :: _, _, _, h2 => by simp [isList, isSeg] at h2
  | _, _ :: _, _, [], _, _, h2 => by simp [isList, isSeg] at h2
  | [], _ :: _, [], _ :: _, p, h1, h2 => by
    simp [isList] at h1
    obtain ⟨hp, _⟩ := (isSeg_cons h p none _ _ _ _).1 h2
    simp [h1] at hp
  | _ :: _, [], _ :: _, [], p, h1, h2 => by
    simp [isList] at h2
    obtain ⟨hp, _⟩ := (isSeg_cons h p none _ _ _ _).1 h1
    simp [h2] at hp
  | a :: as, a' :: as', x :: xs, x' :: xs', p, h1, h2 => by
    obtain ⟨hp, nx, hc, ht⟩ := (isSeg_cons h p none a as x xs).1 h1
    obtain ⟨hp', nx', hc', ht'⟩ := (isSeg_cons h p none a' as' x' xs').1 h2
    rw [hp] at hp'
    cases hp'
    rw [hc] at hc'
    cases hc'
    obtain ⟨e1, e2⟩ := isList_unique ht ht'
    simp [e1, e2]

/-- The cells of a list are pairwise distinct: the chain has no cycle. -/
theorem isList_nodup {h : Heap} : ∀ {as : List Nat} {xs : List Int} {p : Ptr},
    isList h p as xs → as.Nodup
  | [], _, _, _ => List.nodup_nil
  | _ :: _, [], _, hl => by simp [isList, isSeg] at hl
  | a :: as, x :: xs, p, hl => by
    obtain ⟨hp, nx, hc, ht⟩ := (isSeg_cons h p none a as x xs).1 hl
    refine List.nodup_cons.2 ⟨?_, isList_nodup ht⟩
    intro hmem
    obtain ⟨l1, l2, rfl⟩ := List.append_of_mem hmem
    obtain ⟨m, -, h2⟩ := isSeg_split l1.length ht
    simp only [List.drop_left] at h2
    have hlen := isSeg_length h2
    cases hxs : xs.drop l1.length with
    | nil => simp [hxs] at hlen
    | cons y ys =>
      rw [hxs] at h2
      obtain ⟨hm, _⟩ := (isSeg_cons h m none a l2 y ys).1 h2
      rw [hm] at h2
      rw [hp] at hl
      have := (isList_unique h2 hl).1
      have hl := congrArg List.length this
      simp at hl
      omega

/-- Every list of values is the content of a well-formed list in some heap, with
all the addresses beyond its length left free. -/
theorem isList_exists : ∀ xs : List Int, ∃ (h : Heap) (head : Ptr) (as : List Nat),
    isList h head as xs ∧ ∀ b, xs.length < b → h b = none
  | [] => ⟨fun _ => none, none, [], by simp [isList], fun _ _ => rfl⟩
  | x :: xs => by
    obtain ⟨h, head, as, hl, hfree⟩ := isList_exists xs
    have hnew : h (xs.length + 1) = none := hfree _ (Nat.lt_succ_self _)
    refine ⟨h.set (xs.length + 1) ⟨x, head⟩, some (xs.length + 1), (xs.length + 1) :: as,
      ?_, ?_⟩
    · refine (isSeg_cons _ _ _ _ _ _ _).2 ⟨rfl, head, by simp, isSeg_congr ?_ hl⟩
      intro b hb
      have : b ≠ xs.length + 1 := by rintro rfl; exact isSeg_alloc hl _ hb hnew
      rw [Heap_set_other _ _ this]
    · intro b hb
      simp only [List.length_cons] at hb
      rw [Heap_set_other _ _ (by omega)]
      exact hfree b (by omega)

theorem drop_of_getElem_some {α : Type} : ∀ {l : List α} {k : Nat} {c : α},
    l[k]? = some c → l.drop k = c :: l.drop (k + 1)
  | [], _, _, hk => by simp at hk
  | _ :: _, 0, _, hk => by simp at hk; simp [hk]
  | _ :: l, k + 1, c, hk => by
    simp at hk
    simpa using drop_of_getElem_some hk

theorem take_succ_of_getElem_some {α : Type} {l : List α} {k : Nat} {c : α}
    (hk : l[k]? = some c) : l.take (k + 1) = l.take k ++ [c] := by
  rw [List.take_succ, hk]; rfl

/-- Looking at the `k`-th cell of a list: the segment before it, the cell, and
the list after it. -/
theorem isList_focus {h : Heap} {as : List Nat} {xs : List Int} {p : Ptr} {k c : Nat}
    (hl : isList h p as xs) (hk : as[k]? = some c) :
    ∃ x nx, xs[k]? = some x ∧ h c = some ⟨x, nx⟩ ∧
      isSeg h p (as.take k) (xs.take k) (some c) ∧
      isList h nx (as.drop (k + 1)) (xs.drop (k + 1)) ∧
      c ∉ as.take k ∧ c ∉ as.drop (k + 1) := by
  obtain ⟨m, h1, h2⟩ := isSeg_split k hl
  have hnd := isList_nodup hl
  rw [drop_of_getElem_some hk] at h2
  have hklt : k < xs.length := by
    have := isSeg_length hl
    have := (List.getElem?_eq_some_iff.1 hk).1
    omega
  have hx : xs[k]? = some xs[k] := List.getElem?_eq_getElem hklt
  rw [drop_of_getElem_some hx] at h2
  obtain ⟨hm, nx, hc, ht⟩ := (isSeg_cons h m none c _ _ _).1 h2
  subst hm
  refine ⟨xs[k], nx, hx, hc, h1, ht, ?_, ?_⟩
  · rw [← List.take_append_drop k as, drop_of_getElem_some hk] at hnd
    have := List.nodup_append.1 hnd
    intro hmem
    exact this.2.2 hmem (List.mem_cons_self _ _)
  · rw [← List.take_append_drop k as, drop_of_getElem_some hk] at hnd
    have := (List.nodup_append.1 hnd).2.1
    exact (List.nodup_cons.1 this).1

/-- Linking a fresh cell `a` holding `v` after the `k`-th cell `c`. -/
theorem isList_insert_after {h : Heap} {as : List Nat} {xs : List Int} {p : Ptr} {k c a : Nat}
    (v : Int) (hl : isList h p as xs) (hk : as[k]? = some c) (ha : h a = none) :
    ∃ x nx, h c = some ⟨x, nx⟩ ∧ a ≠ c ∧
      isList ((h.set a ⟨v, nx⟩).set c ⟨x, some a⟩) p
        (as.take (k + 1) ++ a :: as.drop (k + 1)) (xs.take (k + 1) ++ v :: xs.drop (k + 1)) := by
  obtain ⟨x, nx, hx, hc, h1, h2, hn1, hn2⟩ := isList_focus hl hk
  have hac : a ≠ c := by rintro rfl; simp [hc] at ha
  have hfr : ∀ b ∈ as, b ≠ a := by
    rintro b hb rfl
    exact isSeg_alloc hl b hb ha
  refine ⟨x, nx, hc, hac, ?_⟩
  rw [take_succ_of_getElem_some hk, take_succ_of_getElem_some hx, List.append_assoc, List.append_assoc]
  refine isSeg_append (isSeg_congr ?_ h1) ?_
  · intro b hb
    have hbc : b ≠ c := by rintro rfl; exact hn1 hb
    rw [Heap_set_other _ _ hbc, Heap_set_other _ _ (hfr b (List.mem_of_mem_take hb))]
  · simp only [List.singleton_append]
    refine (isSeg_cons _ _ _ _ _ _ _).2 ⟨rfl, some a, by simp, ?_⟩
    refine (isSeg_cons _ _ _ _ _ _ _).2 ⟨rfl, nx, ?_, isSeg_congr ?_ h2⟩
    · rw [Heap_set_other _ _ hac]; simp
    · intro b hb
      have hbc : b ≠ c := by rintro rfl; exact hn2 hb
      rw [Heap_set_other _ _ hbc, Heap_set_other _ _ (hfr b (List.mem_of_mem_drop hb))]

/-- The `k`-th cell of a list of `k + 1` cells has no successor. -/
theorem isList_last {h : Heap} {as : List Nat} {xs : List Int} {p : Ptr} {k c : Nat}
    (hl : isList h p as xs) (hk : as[k]? = some c) (hlen : as.length = k + 1) :
    getNext h (some c) = some none := by
  obtain ⟨x, nx, -, hc, -, h2, -, -⟩ := isList_focus hl hk
  have hd : as.drop (k + 1) = [] := List.drop_eq_nil_of_le (by omega)
  rw [hd] at h2
  have hxd : xs.drop (k + 1) = [] := by
    have := isSeg_length hl
    exact List.drop_eq_nil_of_le (by omega)
  rw [hxd] at h2
  simp [isList] at h2
  simp [getNext, hc, h2]

/-- Unlinking and releasing the cell after the `k`-th cell `c`. -/
theorem isList_delete_after {h : Heap} {as : List Nat} {xs : List Int} {p : Ptr} {k c d : Nat}
    (hl : isList h p as xs) (hk : as[k]? = some c) (hd : as[k + 1]? = some d) :
    ∃ x y nn, h c = some ⟨x, some d⟩ ∧ h d = some ⟨y, nn⟩ ∧ c ≠ d ∧
      isList ((h.set c ⟨x, nn⟩).remove d) p (as.eraseIdx (k + 1)) (xs.eraseIdx (k + 1)) := by
  obtain ⟨x, nx, hx, hc, h1, h2, hn1, hn2⟩ := isList_focus hl hk
  obtain ⟨y, nn, hy, hdc, -, h4, hn3, hn4⟩ := isList_focus hl hd
  rw [drop_of_getElem_some hd, drop_of_getElem_some hy] at h2
  obtain ⟨hnx, -⟩ := (isSeg_cons _ _ _ _ _ _ _).1 h2
  subst hnx
  have hcd : c ≠ d := by
    rintro rfl
    exact hn2 (by rw [drop_of_getElem_some hd]; simp)
  refine ⟨x, y, nn, hc, hdc, hcd, ?_⟩
  rw [List.eraseIdx_eq_take_drop_succ, List.eraseIdx_eq_take_drop_succ,
    take_succ_of_getElem_some hk, take_succ_of_getElem_some hx, List.append_assoc, List.append_assoc]
  have hdt : d ∉ as.take k := fun hm => hn3 (by
    rw [take_succ_of_getElem_some hk]
    exact List.mem_append_left _ hm)
  refine isSeg_append (isSeg_congr ?_ h1) ?_
  · intro b hb
    have hbc : b ≠ c := by rintro rfl; exact hn1 hb
    have hbd : b ≠ d := by rintro rfl; exact hdt hb
    rw [Heap_remove_other _ hbd, Heap_set_other _ _ hbc]
  · simp only [List.singleton_append]
    refine (isSeg_cons _ _ _ _ _ _ _).2 ⟨rfl, nn, ?_, isSeg_congr ?_ h4⟩
    · rw [Heap_remove_other _ hcd]; simp
    · intro b hb
      have hbd : b ≠ d := by rintro rfl; exact hn4 hb
      have hbc : b ≠ c := by
        rintro rfl
        exact hn2 (List.mem_of_mem_drop (by simpa using hb))
      rw [Heap_remove_other _ hbd, Heap_set_other _ _ hbc]

/-! ## The loops -/

theorem isList_cons_inv {h : Heap} {cur : Ptr} {as : List Nat} {xs : List Int}
    (hl : isList h cur as xs) (hne : as ≠ []) :
    ∃ c as' x xs' nx, as = c :: as' ∧ xs = x :: xs' ∧ cur = some c ∧
      h c = some ⟨x, nx⟩ ∧ isList h nx as' xs' := by
  cases as with
  | nil => exact absurd rfl hne
  | cons c as' =>
    cases xs with
    | nil => simp [isList, isSeg] at hl
    | cons x xs' =>
      obtain ⟨hp, nx, hc, ht⟩ := (isSeg_cons _ _ _ _ _ _ _).1 hl
      exact ⟨c, as', x, xs', nx, rfl, rfl, hp, hc, ht⟩

theorem isList_none_iff {h : Heap} {cur : Ptr} {as : List Nat} {xs : List Int}
    (hl : isList h cur as xs) : cur = none ↔ as = [] := by
  constructor
  · rintro rfl
    by_contra hne
    obtain ⟨c, as', x, xs', nx, -, -, hc, -⟩ := isList_cons_inv hl hne
    simp at hc
  · rintro rfl
    cases xs with
    | nil => simpa [isList] using hl
    | cons x xs => simp [isList, isSeg] at hl

/-- The loop of `InsertAtEnd` stops on the last cell. -/
theorem InsertAtEnd_loop_eq {h : Heap} : ∀ (fuel : Nat) {cur : Ptr} {as : List Nat}
    {xs : List Int}, isList h cur as xs → as ≠ [] → as.length ≤ fuel →
    InsertAtEnd.loop h fuel cur = some as[as.length - 1]?
  | 0, _, as, _, _, hne, hf => by
    cases as with
    | nil => exact absurd rfl hne
    | cons _ _ => simp at hf
  | fuel + 1, cur, as, xs, hl, hne, hf => by
    obtain ⟨c, as', x, xs', nx, rfl, rfl, rfl, hc, ht⟩ := isList_cons_inv hl hne
    simp only [InsertAtEnd.loop, getNext, hc, Option.map_some', Option.bind_eq_bind,
      Option.some_bind]
    by_cases hnx : nx = none
    · have has' : as' = [] := (isList_none_iff ht).1 hnx
      subst has'
      simp [hnx]
    · have has' : as' ≠ [] := fun e => hnx ((isList_none_iff ht).2 e)
      rw [if_pos hnx, InsertAtEnd_loop_eq fuel ht has' (by simpa using hf)]
      have : as'.length ≠ 0 := by simpa using has'
      obtain ⟨n, hn⟩ := Nat.exists_eq_succ_of_ne_zero this
      simp [hn]

/-- The loop of `InsertAtPos` and `DeleteAtPos`, entered with counter `i`, stops
after `pos - 1 - i` steps, or on the last cell if that comes first. -/
theorem walkToPos_eq {h : Heap} (pos : Int) : ∀ (fuel : Nat) {cur : Ptr} {as : List Nat}
    {xs : List Int} (i : Int), isList h cur as xs → as ≠ [] → as.length ≤ fuel →
    walkToPos h pos fuel cur i = some as[min (pos - 1 - i).toNat (as.length - 1)]?
  | 0, _, as, _, _, _, hne, hf => by
    cases as with
    | nil => exact absurd rfl hne
    | cons _ _ => simp at hf
  | fuel + 1, cur, as, xs, i, hl, hne, hf => by
    obtain ⟨c, as', x, xs', nx, rfl, rfl, rfl, hc, ht⟩ := isList_cons_inv hl hne
    simp only [walkToPos, getNext, hc, Option.map_some', Option.bind_eq_bind,
      Option.some_bind]
    by_cases hcond : nx ≠ none ∧ i < pos - 1
    · have has' : as' ≠ [] := fun e => hcond.1 ((isList_none_iff ht).2 e)
      rw [if_pos hcond, walkToPos_eq pos fuel (i + 1) ht has' (by simpa using hf)]
      have h0 : as'.length ≠ 0 := by simpa using has'
      have hi := hcond.2
      have e : min (pos - 1 - i).toNat ((c :: as').length - 1) =
          min (pos - 1 - (i + 1)).toNat (as'.length - 1) + 1 := by
        simp only [List.length_cons]
        omega
      rw [e]
      simp
    · rw [if_neg hcond]
      have e : min (pos - 1 - i).toNat ((c :: as').length - 1) = 0 := by
        by_cases hnx : nx = none
        · have has' : as' = [] := (isList_none_iff ht).1 hnx
          simp [has']
        · have : ¬ i < pos - 1 := fun hi => hcond ⟨hnx, hi⟩
          have : (pos - 1 - i).toNat = 0 := by omega
          simp [this]
      rw [e]
      simp

/-- The loop of `DeleteFromEnd` stops on the last cell but one. -/
theorem DeleteFromEnd_loop_eq {h : Heap} : ∀ (fuel : Nat) {cur : Ptr} {as : List Nat}
    {xs : List Int}, isList h cur as xs → 2 ≤ as.length → as.length ≤ fuel →
    DeleteFromEnd.loop h fuel cur = some as[as.length - 2]?
  | 0, _, as, _, _, h2, hf => by omega
  | fuel + 1, cur, as, xs, hl, h2, hf => by
    have hne : as ≠ [] := by rintro rfl; simp at h2
    obtain ⟨c, as', x, xs', nx, rfl, rfl, rfl, hc, ht⟩ := isList_cons_inv hl hne
    have hne' : as' ≠ [] := by rintro rfl; simp at h2
    obtain ⟨c', as'', x', xs'', nn, rfl, rfl, rfl, hc', ht'⟩ := isList_cons_inv ht hne'
    simp only [DeleteFromEnd.loop, getNext, hc, hc', Option.map_some', Option.bind_eq_bind,
      Option.some_bind]
    by_cases hnn : nn = none
    · have : as'' = [] := (isList_none_iff ht').1 hnn
      subst this
      simp [hnn]
    · have hne'' : as'' ≠ [] := fun e => hnn ((isList_none_iff ht').2 e)
      have h0 : as''.length ≠ 0 := by simpa using hne''
      rw [if_pos hnn, DeleteFromEnd_loop_eq fuel ht (by simp; omega) (by simpa using hf)]
      obtain ⟨n, hn⟩ := Nat.exists_eq_succ_of_ne_zero h0
      simp [hn]

/-- The loop of `DeleteByValue` stops on the cell before the first one, after the
head, that holds `value`, or on the last cell when there is none. -/
theorem DeleteByValue_loop_eq {h : Heap} (value : Int) : ∀ (fuel : Nat) {cur : Ptr}
    {as : List Nat} {xs : List Int}, isList h cur as xs → as ≠ [] → as.length ≤ fuel →
    DeleteByValue.loop h value fuel cur = some as[xs.tail.indexOf value]?
  | 0, _, as, _, _, hne, hf => by
    cases as with
    | nil => exact absurd rfl hne
    | cons _ _ => simp at hf
  | fuel + 1, cur, as, xs, hl, hne, hf => by
    obtain ⟨c, as', x, xs', nx, rfl, rfl, rfl, hc, ht⟩ := isList_cons_inv hl hne
    simp only [DeleteByValue.loop, getNext, hc, Option.map_some', Option.bind_eq_bind,
      Option.some_bind, List.tail_cons]
    by_cases hnx : nx = none
    · have has' : as' = [] := (isList_none_iff ht).1 hnx
      subst has'
      have : xs' = [] := by
        have := isSeg_length ht
        simpa using this.symm
      simp [hnx, this]
    · have has' : as' ≠ [] := fun e => hnx ((isList_none_iff ht).2 e)
      obtain ⟨c', as'', x', xs'', nn, rfl, rfl, rfl, hc', ht'⟩ := isList_cons_inv ht has'
      simp only [reduceCtorEq, if_false, getData, hc', Option.map_some', Option.some_bind]
      by_cases hv : x' = value
      · simp [hv]
      · rw [if_pos hv, DeleteByValue_loop_eq value fuel ht has' (by simpa using hf)]
        simp [List.indexOf_cons, hv]

/-! ## The functions on well-formed lists -/

theorem Heap_set_remove_comm (h : Heap) {c d : Nat} (n : Node) (hcd : c ≠ d) :
    (h.remove d).set c n = (h.set c n).remove d := by
  funext b
  by_cases hb : b = c
  · subst hb; simp [Heap.set, Heap.remove, hcd]
  · by_cases hb' : b = d
    · subst hb'; simp [Heap.set, Heap.remove, hb]
    · simp [Heap.set, Heap.remove, hb, hb']

theorem InsertAtStart_run (a : Nat) (head : Ptr) (v : Int) (s : State) :
    InsertAtStart (some a) head v s =
      some (some a, { heap := s.heap.set a ⟨v, head⟩, out := s.out }) := by
  simp [InsertAtStart, CreateNode, setNext, Heap_set_set]

theorem isList_push {h : Heap} {head : Ptr} {as : List Nat} {xs : List Int} {a : Nat}
    (v : Int) (hl : isList h head as xs) (ha : h a = none) :
    isList (h.set a ⟨v, head⟩) (some a) (a :: as) (v :: xs) := by
  refine (isSeg_cons _ _ _ _ _ _ _).2 ⟨rfl, head, by simp, isSeg_congr ?_ hl⟩
  intro b hb
  have : b ≠ a := by rintro rfl; exact isSeg_alloc hl b hb ha
  rw [Heap_set_other _ _ this]

theorem isList_fresh {h : Heap} {head : Ptr} {as : List Nat} {xs : List Int} {a : Nat}
    (n : Node) (hl : isList h head as xs) (ha : h a = none) :
    isList (h.set a n) head as xs := by
  refine isSeg_congr ?_ hl
  intro b hb
  have : b ≠ a := by rintro rfl; exact isSeg_alloc hl b hb ha
  rw [Heap_set_other _ _ this]

theorem exists_last_cell {as : List Nat} (hne : as ≠ []) :
    ∃ c, as[as.length - 1]? = some c := by
  have : as.length ≠ 0 := by simpa using hne
  exact ⟨as[as.length - 1], List.getElem?_eq_getElem (by omega)⟩

theorem InsertAtEnd_run {s : State} {head : Ptr} {as : List Nat} {xs : List Int}
    {a : Nat} {fuel : Nat} (v : Int)
    (hl : isList s.heap head as xs) (hne : as ≠ []) (ha : s.heap a = none)
    (hf : as.length ≤ fuel) :
    ∃ c x, as[as.length - 1]? = some c ∧ s.heap c = some ⟨x, none⟩ ∧
      InsertAtEnd fuel (some a) head v s =
        some (head, { heap := (s.heap.set a ⟨v, none⟩).set c ⟨x, some a⟩, out := s.out }) := by
  obtain ⟨c, hk⟩ := exists_last_cell hne
  have hlen : as.length = (as.length - 1) + 1 := by
    have : as.length ≠ 0 := by simpa using hne
    omega
  obtain ⟨x, nx, -, hc, -, -, -, -⟩ := isList_focus hl hk
  have hlast := isList_last hl hk hlen
  simp only [getNext, hc, Option.map_some', Option.some.injEq] at hlast
  subst hlast
  have hhead : head ≠ none := fun e => hne ((isList_none_iff hl).1 e)
  have hl' := isList_fresh ⟨v, none⟩ hl ha
  have hca : c ≠ a := by rintro rfl; simp [hc] at ha
  refine ⟨c, x, hk, hc, ?_⟩
  simp [InsertAtEnd, CreateNode, hhead, InsertAtEnd_loop_eq fuel hl' hne hf, hk, setNext,
    Heap_set_other _ _ hca, hc]

theorem InsertAtPos_run {s : State} {head : Ptr} {as : List Nat} {xs : List Int}
    {a : Nat} {fuel : Nat} (v : Int) {pos : Int}
    (hl : isList s.heap head as xs) (hne : as ≠ []) (hpos : 1 < pos) (ha : s.heap a = none)
    (hf : as.length ≤ fuel) :
    ∃ c x nx, as[min (pos - 2).toNat (as.length - 1)]? = some c ∧ s.heap c = some ⟨x, nx⟩ ∧
      InsertAtPos fuel (some a) head v pos s =
        some (head, { heap := (s.heap.set a ⟨v, nx⟩).set c ⟨x, some a⟩, out := s.out }) := by
  have hlt : min (pos - 2).toNat (as.length - 1) < as.length := by
    have : as.length ≠ 0 := by simpa using hne
    omega
  have hk := List.getElem?_eq_getElem hlt
  obtain ⟨x, nx, -, hc, -, -, -, -⟩ := isList_focus hl hk
  have hhead : head ≠ none := fun e => hne ((isList_none_iff hl).1 e)
  have hca : as[min (pos - 2).toNat (as.length - 1)] ≠ a := by
    intro e; rw [e] at hc; simp [hc] at ha
  have hw := walkToPos_eq pos fuel 1 hl hne hf
  have e2 : pos - 1 - 1 = pos - 2 := by ring
  rw [e2, hk] at hw
  refine ⟨_, x, nx, hk, hc, ?_⟩
  simp [InsertAtPos, not_le.2 hpos, hhead, hw, CreateNode, getNext, setNext,
    Heap_set_other _ _ hca, hc, Heap_set_set]

theorem eraseIdx_last {α : Type} (l : List α) : l.eraseIdx (l.length - 1) = l.dropLast := by
  cases l with
  | nil => rfl
  | cons a l => exact (List.dropLast_eq_eraseIdx (by simp)).symm

theorem DeleteFromStart_run {s : State} {c : Nat} {x : Int} {nx : Ptr}
    (hc : s.heap c = some ⟨x, nx⟩) :
    DeleteFromStart (some c) s = some (nx, { heap := s.heap.remove c, out := s.out }) := by
  simp [DeleteFromStart, getNext, free, hc]

theorem isList_pop {h : Heap} {p : Ptr} {c : Nat} {as : List Nat} {x : Int} {xs : List Int}
    (hl : isList h p (c :: as) (x :: xs)) :
    ∃ nx, p = some c ∧ h c = some ⟨x, nx⟩ ∧ isList (h.remove c) nx as xs := by
  obtain ⟨hp, nx, hc, ht⟩ := (isSeg_cons _ _ _ _ _ _ _).1 hl
  have hnd := List.nodup_cons.1 (isList_nodup hl)
  refine ⟨nx, hp, hc, isSeg_congr ?_ ht⟩
  intro b hb
  have : b ≠ c := by rintro rfl; exact hnd.1 hb
  rw [Heap_remove_other _ this]

theorem DeleteFromStart_spec {s : State} {head : Ptr} {c : Nat} {as : List Nat} {x : Int}
    {xs : List Int} (hl : isList s.heap head (c :: as) (x :: xs)) :
    ∃ head' s', DeleteFromStart head s = some (head', s') ∧ s'.out = s.out ∧
      isList s'.heap head' as xs := by
  obtain ⟨nx, rfl, hc, ht⟩ := isList_pop hl
  exact ⟨nx, _, DeleteFromStart_run hc, rfl, ht⟩

theorem DeleteFromEnd_spec (fuel : Nat) {s : State} {head : Ptr} {as : List Nat} {xs : List Int}
    (hl : isList s.heap head as xs) (hne : as ≠ []) (hf : as.length ≤ fuel) :
    ∃ head' s', DeleteFromEnd fuel head s = some (head', s') ∧ s'.out = s.out ∧
      isList s'.heap head' as.dropLast xs.dropLast := by
  have hlen := isSeg_length hl
  by_cases h1 : as.length = 1
  · obtain ⟨c, as', x, xs', nx, rfl, rfl, rfl, hc, ht⟩ := isList_cons_inv hl hne
    have : as' = [] := by simpa using h1
    subst this
    have : xs' = [] := by simpa using hlen.symm
    subst this
    have hnx : nx = none := by simpa [isList] using ht
    subst hnx
    refine ⟨none, { heap := s.heap.remove c, out := s.out }, ?_, rfl, by simp [isList]⟩
    simp [DeleteFromEnd, getNext, free, hc]
  · have h0 : as.length ≠ 0 := by simpa using hne
    have h2 : 2 ≤ as.length := by omega
    obtain ⟨c, hk⟩ : ∃ c, as[as.length - 2]? = some c :=
      ⟨_, List.getElem?_eq_getElem (by omega)⟩
    obtain ⟨d, hd⟩ : ∃ d, as[as.length - 2 + 1]? = some d :=
      ⟨_, List.getElem?_eq_getElem (by omega)⟩
    obtain ⟨x, y, nn, hc, hdc, hcd, hrep⟩ := isList_delete_after hl hk hd
    have hlast := isList_last hl hd (by omega)
    simp only [getNext, hdc, Option.map_some', Option.some.injEq] at hlast
    subst hlast
    have hhead : head ≠ none := fun e => hne ((isList_none_iff hl).1 e)
    have hnx : ∃ c0, head = some c0 ∧ ∃ n0, s.heap c0 = some n0 ∧ n0.next ≠ none := by
      obtain ⟨c0, as', x0, xs', nx, rfl, rfl, rfl, hc0, ht⟩ := isList_cons_inv hl hne
      refine ⟨c0, rfl, _, hc0, ?_⟩
      intro e
      have : as' = [] := (isList_none_iff ht).1 e
      simp [this] at h1
    obtain ⟨c0, rfl, n0, hc0, hn0⟩ := hnx
    have e1 : as.length - 2 + 1 = as.length - 1 := by omega
    have hdl : as.eraseIdx (as.length - 2 + 1) = as.dropLast := by
      rw [e1, eraseIdx_last]
    have hdx : xs.eraseIdx (as.length - 2 + 1) = xs.dropLast := by
      rw [e1, hlen, eraseIdx_last]
    rw [hdl, hdx] at hrep
    refine ⟨some c0, ⟨(s.heap.set c ⟨x, none⟩).remove d, s.out⟩, ?_, rfl, hrep⟩
    simp [DeleteFromEnd, getNext, hc0, hn0, DeleteFromEnd_loop_eq fuel hl h2 hf, hk, hc, free,
      hdc, setNext, Heap_remove_other _ hcd, Heap_set_remove_comm _ _ hcd]

theorem DeleteAtPos_spec_in (fuel : Nat) {s : State} {head : Ptr} {as : List Nat} {xs : List Int}
    {pos : Int} (hl : isList s.heap head as xs) (hpos : 1 < pos)
    (hin : pos ≤ as.length) (hf : as.length ≤ fuel) :
    ∃ s', DeleteAtPos fuel head pos s = some (head, s') ∧ s'.out = s.out ∧
      isList s'.heap head (as.eraseIdx (pos - 1).toNat) (xs.eraseIdx (pos - 1).toNat) := by
  have hne : as ≠ [] := by rintro rfl; simp at hin; omega
  have hhead : head ≠ none := fun e => hne ((isList_none_iff hl).1 e)
  have hmin : min (pos - 1 - 1).toNat (as.length - 1) = (pos - 2).toNat := by omega
  have hw := walkToPos_eq pos fuel 1 hl hne hf
  rw [hmin] at hw
  obtain ⟨c, hk⟩ : ∃ c, as[(pos - 2).toNat]? = some c :=
    ⟨_, List.getElem?_eq_getElem (by omega)⟩
  obtain ⟨d, hd⟩ : ∃ d, as[(pos - 2).toNat + 1]? = some d :=
    ⟨_, List.getElem?_eq_getElem (by omega)⟩
  obtain ⟨x, y, nn, hc, hdc, hcd, hrep⟩ := isList_delete_after hl hk hd
  have e1 : (pos - 2).toNat + 1 = (pos - 1).toNat := by omega
  rw [e1] at hrep
  refine ⟨⟨(s.heap.set c ⟨x, nn⟩).remove d, s.out⟩, ?_, rfl, hrep⟩
  simp [DeleteAtPos, hhead, not_le.2 hpos, hw, hk, getNext, hc, hdc, setNext, free,
    Heap_set_other _ _ hcd.symm]

theorem DeleteAtPos_spec_out {s : State} {head : Ptr} {as : List Nat} {xs : List Int}
    {fuel : Nat} {pos : Int} (hl : isList s.heap head as xs) (hne : as ≠ [])
    (hout : (as.length : Int) < pos) (hf : as.length ≤ fuel) :
    DeleteAtPos fuel head pos s = some (head, s.print
      ("Position " ++ toString pos ++ " out of range. No deletion performed.\n")) := by
  have hhead : head ≠ none := fun e => hne ((isList_none_iff hl).1 e)
  have h0 : as.length ≠ 0 := by simpa using hne
  have hpos : 1 < pos := by omega
  have hmin : min (pos - 1 - 1).toNat (as.length - 1) = as.length - 1 := by omega
  have hw := walkToPos_eq pos fuel 1 hl hne hf
  rw [hmin] at hw
  obtain ⟨c, hk⟩ := exists_last_cell hne
  have hlast := isList_last hl hk (by omega)
  simp [DeleteAtPos, hhead, not_le.2 hpos, hw, hk, hlast]

theorem DeleteByValue_spec_found (fuel : Nat) {s : State} {head : Ptr} {as : List Nat} {xs : List Int}
    {v : Int} (hl : isList s.heap head as xs) (hv : v ∈ xs)
    (hf : as.length ≤ fuel) :
    ∃ head' s', DeleteByValue fuel head v s = some (head', s') ∧ s'.out = s.out ∧
      isList s'.heap head' (as.eraseIdx (xs.indexOf v)) (xs.erase v) := by
  have hlen := isSeg_length hl
  have hne : as ≠ [] := by
    rintro rfl
    have : xs = [] := List.length_eq_zero.1 hlen.symm
    simp [this] at hv
  obtain ⟨c0, as', x0, xs', nx, rfl, rfl, rfl, hc0, ht⟩ := isList_cons_inv hl hne
  by_cases hx0 : x0 = v
  · subst hx0
    obtain ⟨nx', -, hc', ht'⟩ := isList_pop hl
    refine ⟨nx', ⟨s.heap.remove c0, s.out⟩, ?_, rfl, by simpa [List.indexOf_cons] using ht'⟩
    simp [DeleteByValue, getData, hc0, DeleteFromStart_run hc']
  · have hv' : v ∈ xs' := by
      rcases List.mem_cons.1 hv with e | e
      · exact absurd e.symm hx0
      · exact e
    have hidx : xs'.indexOf v < xs'.length := List.indexOf_lt_length.2 hv'
    have hw := DeleteByValue_loop_eq v fuel hl hne hf
    simp only [List.tail_cons] at hw
    simp only [List.length_cons] at hlen
    obtain ⟨c, hk⟩ : ∃ c, (c0 :: as')[xs'.indexOf v]? = some c :=
      ⟨_, List.getElem?_eq_getElem (by simp; omega)⟩
    obtain ⟨d, hd⟩ : ∃ d, (c0 :: as')[xs'.indexOf v + 1]? = some d :=
      ⟨_, List.getElem?_eq_getElem (by simp; omega)⟩
    obtain ⟨x, y, nn, hc, hdc, hcd, hrep⟩ := isList_delete_after hl hk hd
    have e1 : (x0 :: xs').indexOf v = xs'.indexOf v + 1 := by
      simp [List.indexOf_cons, hx0]
    have e2 : (x0 :: xs').erase v = (x0 :: xs').eraseIdx (xs'.indexOf v + 1) := by
      rw [← List.eraseIdx_indexOf_eq_erase, e1]
    rw [e1, e2]
    refine ⟨some c0, ⟨(s.heap.set c ⟨x, nn⟩).remove d, s.out⟩, ?_, rfl, hrep⟩
    rw [hk] at hw
    simp [DeleteByValue, getData, hc0, hx0, hw, getNext, hc, hdc, setNext, free,
      Heap_set_other _ _ hcd.symm]

theorem DeleteByValue_spec_notfound {s : State} {head : Ptr} {as : List Nat} {xs : List Int}
    {fuel : Nat} {v : Int} (hl : isList s.heap head as xs) (hne : as ≠ []) (hv : v ∉ xs)
    (hf : as.length ≤ fuel) :
    DeleteByValue fuel head v s =
      some (head, s.print ("Value " ++ toString v ++ " not found in list.\n")) := by
  have hlen := isSeg_length hl
  obtain ⟨c0, as', x0, xs', nx, rfl, rfl, rfl, hc0, ht⟩ := isList_cons_inv hl hne
  have hx0 : x0 ≠ v := fun e => hv (by simp [e])
  have hv' : v ∉ xs' := fun e => hv (by simp [e])
  have hidx : xs'.indexOf v = xs'.length := List.indexOf_eq_length.2 hv'
  have hw := DeleteByValue_loop_eq v fuel hl hne hf
  simp only [List.tail_cons, hidx] at hw
  simp only [List.length_cons] at hlen
  obtain ⟨c, hk⟩ := exists_last_cell hne
  have e : (c0 :: as').length - 1 = xs'.length := by simp; omega
  rw [e] at hk
  have hlast := isList_last hl hk (by simp; omega)
  rw [hk] at hw
  simp [DeleteByValue, getData, hc0, hx0, hw, hlast]

theorem isList_length {h : Heap} {p : Ptr} {as : List Nat} {xs : List Int}
    (hl : isList h p as xs) : as.length = xs.length :=
  isSeg_length hl

theorem isList_ne_nil {h : Heap} {p : Ptr} {as : List Nat} {xs : List Int}
    (hl : isList h p as xs) (hne : xs ≠ []) : as ≠ [] := by
  rintro rfl
  exact hne (List.length_eq_zero.1 (isList_length hl).symm)

theorem InsertAtEnd_spec (fuel : Nat) {s : State} {head : Ptr} {as : List Nat} {xs : List Int}
    {a : Nat} (v : Int)
    (hl : isList s.heap head as xs) (ha : s.heap a = none) (hf : as.length ≤ fuel) :
    ∃ head' s', InsertAtEnd fuel (some a) head v s = some (head', s') ∧ s'.out = s.out ∧
      isList s'.heap head' (as ++ [a]) (xs ++ [v]) ∧
      (as = [] → head' = some a) ∧ (as ≠ [] → head' = head) := by
  by_cases hne : as = []
  · subst hne
    have hxs : xs = [] := List.length_eq_zero.1 (isList_length hl).symm
    subst hxs
    have hh : head = none := (isList_none_iff hl).2 rfl
    subst hh
    refine ⟨some a, ⟨s.heap.set a ⟨v, none⟩, s.out⟩, ?_, rfl, ?_, fun _ => rfl,
      fun h => absurd rfl h⟩
    · simp [InsertAtEnd, CreateNode]
    · simpa using isList_push v hl ha
  · obtain ⟨c, x, hk, hc, hrun⟩ := InsertAtEnd_run v hl hne ha hf
    obtain ⟨x', nx', hc', -, hrep⟩ := isList_insert_after v hl hk ha
    rw [hc] at hc'
    cases hc'
    have h0 : as.length ≠ 0 := by simpa using hne
    have e : as.length - 1 + 1 = as.length := by omega
    have hlen := isList_length hl
    rw [e, List.take_length, List.drop_length, List.take_of_length_le (by omega),
      List.drop_eq_nil_of_le (by omega)] at hrep
    exact ⟨head, _, hrun, rfl, hrep, fun h => absurd h hne, fun _ => rfl⟩

theorem InsertAtPos_spec (fuel : Nat) {s : State} {head : Ptr} {as : List Nat} {xs : List Int}
    {a : Nat} (v : Int) {pos : Int}
    (hl : isList s.heap head as xs) (hne : as ≠ []) (hpos : 1 < pos) (ha : s.heap a = none)
    (hf : as.length ≤ fuel) :
    ∃ s', InsertAtPos fuel (some a) head v pos s = some (head, s') ∧ s'.out = s.out ∧
      isList s'.heap head
        (as.take (min (pos - 1).toNat as.length) ++ a :: as.drop (min (pos - 1).toNat as.length))
        (xs.take (min (pos - 1).toNat as.length) ++ v :: xs.drop (min (pos - 1).toNat as.length)) := by
  obtain ⟨c, x, nx, hk, hc, hrun⟩ := InsertAtPos_run v hl hne hpos ha hf
  obtain ⟨x', nx', hc', -, hrep⟩ := isList_insert_after v hl hk ha
  rw [hc] at hc'
  cases hc'
  have h0 : as.length ≠ 0 := by simpa using hne
  have e : min (pos - 2).toNat (as.length - 1) + 1 = min (pos - 1).toNat as.length := by omega
  rw [e] at hrep
  exact ⟨_, hrun, rfl, hrep⟩

theorem InsertAtPos_eq_InsertAtEnd {s : State} {head : Ptr} {as : List Nat} {xs : List Int}
    {a : Nat} {fuel : Nat} (v : Int) {pos : Int}
    (hl : isList s.heap head as xs) (hne : as ≠ []) (hpos : (as.length : Int) < pos)
    (ha : s.heap a = none) (hf : as.length ≤ fuel) :
    InsertAtPos fuel (some a) head v pos s = InsertAtEnd fuel (some a) head v s := by
  have h0 : as.length ≠ 0 := by simpa using hne
  have hpos' : 1 < pos := by omega
  obtain ⟨c, x, nx, hk, hc, hrun⟩ := InsertAtPos_run v hl hne hpos' ha hf
  obtain ⟨c', x', hk', hc', hrun'⟩ := InsertAtEnd_run v hl hne ha hf
  have e : min (pos - 2).toNat (as.length - 1) = as.length - 1 := by omega
  rw [e, hk'] at hk
  cases hk
  rw [hc'] at hc
  cases hc
  rw [hrun, hrun']

theorem insert_facts (xs : List Int) (v : Int) (k : Nat) (hk : k ≤ xs.length) :
    (xs.take k ++ v :: xs.drop k)[k]? = some v ∧
    (xs.take k ++ v :: xs.drop k).take k = xs.take k ∧
    (xs.take k ++ v :: xs.drop k).drop (k + 1) = xs.drop k ∧
    (xs.take k ++ v :: xs.drop k).length = xs.length + 1 := by
  have hlt : (xs.take k).length = k := by simp [List.length_take, hk]
  refine ⟨?_, ?_, ?_, ?_⟩
  · rw [List.getElem?_append_right (by omega)]
    simp [hlt]
  · rw [List.take_append_eq_append_take]
    simp [hlt]
  · rw [List.drop_append_eq_append_drop]
    simp [hlt, List.drop_eq_nil_of_le]
  · simp [List.length_take, List.length_drop]
    omega


/-! ## The claims -/

/-- C1: on a non-empty list `xs`, `InsertAtPos` with a position beyond the length
(allocation succeeding, `a` being the fresh cell) returns the same head with `v`
appended as the new last element; this is exactly the result of `InsertAtEnd`, and
nothing is printed (no out-of-range rejection). -/
theorem InsertAtPos_beyond_length_appends (s : State) (head : Ptr) (as : List Nat)
    (xs : List Int) (a : Nat) (v pos : Int) (fuel : Nat)
    (hl : isList s.heap head as xs) (hne : xs ≠ []) (ha : s.heap a = none)
    (hpos : (xs.length : Int) < pos) (hf : xs.length ≤ fuel) :
    ∃ s', InsertAtPos fuel (some a) head v pos s = some (head, s') ∧
      InsertAtEnd fuel (some a) head v s = some (head, s') ∧
      isList s'.heap head (as ++ [a]) (xs ++ [v]) ∧ s'.out = s.out := by
  have hlen := isList_length hl
  have hne' := isList_ne_nil hl hne
  obtain ⟨head', s', hrun, hout, hrep, -, hh⟩ :=
    InsertAtEnd_spec fuel v hl ha (by omega)
  rw [hh hne'] at hrun hrep
  refine ⟨s', ?_, hrun, hrep, hout⟩
  rw [InsertAtPos_eq_InsertAtEnd v hl hne' (by omega) ha (by omega), hrun]

/-- C1 at `InsertAtPos([1,2,3], 9, 100) = [1,2,3,9]`. -/
theorem InsertAtPos_beyond_length_appends_witness :
    isList state123.heap (some 10) [10, 20, 30] [1, 2, 3] ∧
    ∃ s', InsertAtPos 3 (some 40) (some 10) 9 100 state123 = some (some 10, s') ∧
      InsertAtEnd 3 (some 40) (some 10) 9 state123 = some (some 10, s') ∧
      isList s'.heap (some 10) [10, 20, 30, 40] [1, 2, 3, 9] ∧ s'.out = [] :=
  ⟨by decide, InsertAtPos_beyond_length_appends state123 (some 10) [10, 20, 30] [1, 2, 3] 40 9
    100 3 (by decide) (by decide) (by decide) (by decide) (by decide)⟩

/-- C2: on a non-empty list, `DeleteAtPos` with a position beyond the length
deletes nothing: it returns the same head, leaves the heap (hence the list) as it
was, and prints the out-of-range report. -/
theorem DeleteAtPos_beyond_length_rejects (s : State) (head : Ptr) (as : List Nat)
    (xs : List Int) (pos : Int) (fuel : Nat)
    (hl : isList s.heap head as xs) (hne : xs ≠ [])
    (hpos : (xs.length : Int) < pos) (hf : xs.length ≤ fuel) :
    ∃ s', DeleteAtPos fuel head pos s = some (head, s') ∧
      s'.heap = s.heap ∧ isList s'.heap head as xs ∧
      s'.out = s.out ++
        ["Position " ++ toString pos ++ " out of range. No deletion performed.\n"] := by
  have hlen := isList_length hl
  have hne' := isList_ne_nil hl hne
  exact ⟨_, DeleteAtPos_spec_out hl hne' (by omega) (by omega), rfl, hl, rfl⟩

/-- C2 at `DeleteAtPos([1,2,3], 100) = [1,2,3]`. -/
theorem DeleteAtPos_beyond_length_rejects_witness :
    isList state123.heap (some 10) [10, 20, 30] [1, 2, 3] ∧
    ∃ s', DeleteAtPos 3 (some 10) 100 state123 = some (some 10, s') ∧
      s'.heap = state123.heap ∧ isList s'.heap (some 10) [10, 20, 30] [1, 2, 3] ∧
      s'.out = ["Position 100 out of range. No deletion performed.\n"] :=
  ⟨by decide, DeleteAtPos_beyond_length_rejects state123 (some 10) [10, 20, 30] [1, 2, 3]
    100 3 (by decide) (by decide) (by decide) (by decide)⟩

/-- C3: positions are 1-based for insertion.  For `1 ≤ pos ≤ length + 1`
(allocation succeeding, `a` being the fresh cell) `InsertAtPos` returns a list `ys`
that is the first `pos - 1` elements of `xs`, then `v`, then the rest of `xs`: its
`pos`-th element is `v`, its first `pos - 1` elements are those of `xs`, and what
follows `v` is the remainder of `xs` in order.  Nothing is printed. -/
theorem InsertAtPos_one_based (s : State) (head : Ptr) (as : List Nat) (xs : List Int)
    (a : Nat) (v pos : Int) (fuel : Nat)
    (hl : isList s.heap head as xs) (ha : s.heap a = none)
    (h1 : 1 ≤ pos) (h2 : pos ≤ (xs.length : Int) + 1) (hf : xs.length ≤ fuel) :
    ∃ head' s' ys, InsertAtPos fuel (some a) head v pos s = some (head', s') ∧
      isList s'.heap head'
        (as.take (pos - 1).toNat ++ a :: as.drop (pos - 1).toNat) ys ∧
      ys = xs.take (pos - 1).toNat ++ v :: xs.drop (pos - 1).toNat ∧
      ys[(pos - 1).toNat]? = some v ∧
      ys.take (pos - 1).toNat = xs.take (pos - 1).toNat ∧
      ys.drop ((pos - 1).toNat + 1) = xs.drop (pos - 1).toNat ∧
      ys.length = xs.length + 1 ∧
      s'.out = s.out := by
  have hlen := isList_length hl
  have hk : (pos - 1).toNat ≤ xs.length := by omega
  have hfacts := insert_facts xs v (pos - 1).toNat hk
  by_cases hp : pos ≤ 1 ∨ head = none
  · have hpos : (pos - 1).toNat = 0 := by
      rcases hp with hp | hp
      · omega
      · have : as = [] := (isList_none_iff hl).1 hp
        simp [this] at hlen
        omega
    refine ⟨some a, ⟨s.heap.set a ⟨v, head⟩, s.out⟩, _, ?_, ?_, rfl, ?_⟩
    · simp [InsertAtPos, hp, InsertAtStart_run]
    · simpa [hpos] using isList_push v hl ha
    · obtain ⟨f1, f2, f3, f4⟩ := hfacts
      exact ⟨f1, f2, f3, f4, rfl⟩
  · have hpos : 1 < pos := by
      by_contra hc
      exact hp (Or.inl (by omega))
    have hne : as ≠ [] := fun e => hp (Or.inr ((isList_none_iff hl).2 e))
    obtain ⟨s', hrun, hout, hrep⟩ := InsertAtPos_spec fuel v hl hne hpos ha (by omega)
    have e : min (pos - 1).toNat as.length = (pos - 1).toNat := by omega
    rw [e] at hrep
    obtain ⟨f1, f2, f3, f4⟩ := hfacts
    exact ⟨head, s', _, hrun, hrep, rfl, f1, f2, f3, f4, hout⟩

/-- C3 at `InsertAtPos([1,2,3], 9, 2) = [1,9,2,3]`. -/
theorem InsertAtPos_one_based_witness :
    isList state123.heap (some 10) [10, 20, 30] [1, 2, 3] ∧
    ∃ head' s' ys, InsertAtPos 3 (some 40) (some 10) 9 2 state123 = some (head', s') ∧
      isList s'.heap head' [10, 40, 20, 30] ys ∧
      ys = [1, 9, 2, 3] ∧ ys[1]? = some 9 ∧ ys.take 1 = [1] ∧ ys.drop 2 = [2, 3] ∧
      ys.length = 4 ∧ s'.out = [] :=
  ⟨by decide, InsertAtPos_one_based state123 (some 10) [10, 20, 30] [1, 2, 3] 40 9 2 3
    (by decide) (by decide) (by decide) (by decide) (by decide)⟩

/-- C4: positions are 1-based for deletion.  For `1 ≤ pos ≤ length`, `DeleteAtPos`
returns `xs` with exactly its `pos`-th element removed (the elements before and
after it kept in order), so the result has one element less.  Nothing is printed. -/
theorem DeleteAtPos_one_based (s : State) (head : Ptr) (as : List Nat) (xs : List Int)
    (pos : Int) (fuel : Nat)
    (hl : isList s.heap head as xs)
    (h1 : 1 ≤ pos) (h2 : pos ≤ (xs.length : Int)) (hf : xs.length ≤ fuel) :
    ∃ head' s' ys, DeleteAtPos fuel head pos s = some (head', s') ∧
      isList s'.heap head' (as.eraseIdx (pos - 1).toNat) ys ∧
      ys = xs.take (pos - 1).toNat ++ xs.drop ((pos - 1).toNat + 1) ∧
      ys.length = xs.length - 1 ∧
      s'.out = s.out := by
  have hlen := isList_length hl
  have hne : as ≠ [] := by
    rintro rfl
    simp at hlen
    omega
  have hhead : head ≠ none := fun e => hne ((isList_none_iff hl).1 e)
  have hl2 : (xs.take (pos - 1).toNat ++ xs.drop ((pos - 1).toNat + 1)).length
      = xs.length - 1 := by
    simp [List.length_take, List.length_drop]
    omega
  by_cases hp : pos ≤ 1
  · have hpos : (pos - 1).toNat = 0 := by omega
    obtain ⟨c, as', x, xs', nx, rfl, rfl, rfl, hc, ht⟩ := isList_cons_inv hl hne
    obtain ⟨head', s', hrun, hout, hrep⟩ := DeleteFromStart_spec hl
    refine ⟨head', s', _, ?_, ?_, rfl, hl2, hout⟩
    · simp [DeleteAtPos, hp, hrun]
    · simpa [hpos] using hrep
  · obtain ⟨s', hrun, hout, hrep⟩ :=
      DeleteAtPos_spec_in fuel hl (not_le.1 hp) (by omega) (by omega)
    rw [List.eraseIdx_eq_take_drop_succ xs] at hrep
    exact ⟨head, s', _, hrun, hrep, rfl, hl2, hout⟩

/-- C4 at `DeleteAtPos([1,2,3], 2) = [1,3]`. -/
theorem DeleteAtPos_one_based_witness :
    isList state123.heap (some 10) [10, 20, 30] [1, 2, 3] ∧
    ∃ head' s' ys, DeleteAtPos 3 (some 10) 2 state123 = some (head', s') ∧
      isList s'.heap head' [10, 30] ys ∧ ys = [1, 3] ∧ ys.length = 2 ∧ s'.out = [] :=
  ⟨by decide, DeleteAtPos_one_based state123 (some 10) [10, 20, 30] [1, 2, 3] 2 3
    (by decide) (by decide) (by decide) (by decide)⟩

/-- C5: when `pos ≤ 1` (zero and negative positions included) or the list is empty
(whatever `pos`), `InsertAtPos` is `InsertAtStart`, whatever `malloc` returns; and
when the allocation succeeds (`a` being the fresh cell) the result is the list `v`
followed by all of `xs`, headed by the new cell, with nothing printed. -/
theorem InsertAtPos_le_one_or_empty (s : State) (head : Ptr) (as : List Nat)
    (xs : List Int) (a : Nat) (v pos : Int) (fuel : Nat)
    (hl : isList s.heap head as xs) (hp : pos ≤ 1 ∨ xs = []) :
    (∀ m, InsertAtPos fuel m head v pos s = InsertAtStart m head v s) ∧
    (s.heap a = none →
      ∃ s', InsertAtPos fuel (some a) head v pos s = some (some a, s') ∧
        isList s'.heap (some a) (a :: as) (v :: xs) ∧ s'.out = s.out) := by
  have hcond : pos ≤ 1 ∨ head = none := by
    rcases hp with hp | hp
    · exact Or.inl hp
    · subst hp
      have : as = [] := List.length_eq_zero.1 (isList_length hl)
      exact Or.inr ((isList_none_iff hl).2 this)
  have heq : ∀ m, InsertAtPos fuel m head v pos s = InsertAtStart m head v s := by
    intro m
    simp [InsertAtPos, hcond]
  refine ⟨heq, fun ha => ?_⟩
  exact ⟨⟨s.heap.set a ⟨v, head⟩, s.out⟩, by rw [heq, InsertAtStart_run], isList_push v hl ha,
    rfl⟩

/-- C5 at `InsertAtPos([1,2,3], 9, -4) = [9,1,2,3]`. -/
theorem InsertAtPos_le_one_or_empty_witness :
    isList state123.heap (some 10) [10, 20, 30] [1, 2, 3] ∧
    (∀ m, InsertAtPos 0 m (some 10) 9 (-4) state123 = InsertAtStart m (some 10) 9 state123) ∧
    (state123.heap 40 = none →
      ∃ s', InsertAtPos 0 (some 40) (some 10) 9 (-4) state123 = some (some 40, s') ∧
        isList s'.heap (some 40) [40, 10, 20, 30] [9, 1, 2, 3] ∧ s'.out = []) :=
  ⟨by decide, InsertAtPos_le_one_or_empty state123 (some 10) [10, 20, 30] [1, 2, 3] 40
    9 (-4) 0 (by decide) (Or.inl (by decide))⟩

/-- C6: on a non-empty list, `DeleteAtPos` with `pos ≤ 1` (zero and negative
positions included) is `DeleteFromStart`: it returns `xs` without its head element
and prints nothing (no out-of-range report). -/
theorem DeleteAtPos_le_one (s : State) (head : Ptr) (as : List Nat) (xs : List Int)
    (pos : Int) (fuel : Nat)
    (hl : isList s.heap head as xs) (hne : xs ≠ []) (hp : pos ≤ 1) :
    DeleteAtPos fuel head pos s = DeleteFromStart head s ∧
    ∃ head' s', DeleteAtPos fuel head pos s = some (head', s') ∧
      isList s'.heap head' as.tail xs.tail ∧ s'.out = s.out := by
  have hne' := isList_ne_nil hl hne
  have hhead : head ≠ none := fun e => hne' ((isList_none_iff hl).1 e)
  have heq : DeleteAtPos fuel head pos s = DeleteFromStart head s := by
    simp [DeleteAtPos, hhead, hp]
  obtain ⟨c, as', x, xs', nx, rfl, rfl, rfl, hc, ht⟩ := isList_cons_inv hl hne'
  obtain ⟨head', s', hrun, hout, hrep⟩ := DeleteFromStart_spec hl
  exact ⟨heq, head', s', by rw [heq, hrun], hrep, hout⟩

/-- C6 at `DeleteAtPos([1,2,3], 0) = [2,3]`. -/
theorem DeleteAtPos_le_one_witness :
    isList state123.heap (some 10) [10, 20, 30] [1, 2, 3] ∧
    (DeleteAtPos 0 (some 10) 0 state123 = DeleteFromStart (some 10) state123 ∧
    ∃ head' s', DeleteAtPos 0 (some 10) 0 state123 = some (head', s') ∧
      isList s'.heap head' [20, 30] [2, 3] ∧ s'.out = []) :=
  ⟨by decide, DeleteAtPos_le_one state123 (some 10) [10, 20, 30] [1, 2, 3] 0 0
    (by decide) (by decide) (by decide)⟩

/-- C7: when `v` occurs in `xs`, `DeleteByValue` removes only its first (leftmost)
occurrence: the result is `xs.erase v`, that is, `xs` splits as `l1 ++ v :: l2` with
`v` not in `l1` and the result is `l1 ++ l2`, so the elements before it, the elements
after it and any later occurrence of `v` keep their order.  The cell released is the
one at the index of that first occurrence, and nothing is printed. -/
theorem DeleteByValue_first_occurrence (s : State) (head : Ptr) (as : List Nat)
    (xs : List Int) (v : Int) (fuel : Nat)
    (hl : isList s.heap head as xs) (hv : v ∈ xs) (hf : xs.length ≤ fuel) :
    ∃ head' s', DeleteByValue fuel head v s = some (head', s') ∧
      isList s'.heap head' (as.eraseIdx (xs.indexOf v)) (xs.erase v) ∧ s'.out = s.out ∧
      ∃ l1 l2, xs = l1 ++ v :: l2 ∧ v ∉ l1 ∧ xs.erase v = l1 ++ l2 := by
  have hlen := isList_length hl
  obtain ⟨head', s', hrun, hout, hrep⟩ := DeleteByValue_spec_found fuel hl hv (by omega)
  obtain ⟨l1, l2, hn, hxs, her⟩ := List.exists_erase_eq hv
  exact ⟨head', s', hrun, hrep, hout, l1, l2, hxs, hn, her⟩

/-- C7 at `DeleteByValue([5,3,5,2], 5) = [3,5,2]`. -/
theorem DeleteByValue_first_occurrence_witness :
    isList state5352.heap (some 1) [1, 2, 3, 4] [5, 3, 5, 2] ∧
    ∃ head' s', DeleteByValue 4 (some 1) 5 state5352 = some (head', s') ∧
      isList s'.heap head' [2, 3, 4] [3, 5, 2] ∧ s'.out = [] ∧
      ∃ l1 l2, [5, 3, 5, 2] = l1 ++ (5 : Int) :: l2 ∧ (5 : Int) ∉ l1 ∧
        [3, 5, 2] = l1 ++ l2 :=
  ⟨by decide, DeleteByValue_first_occurrence state5352 (some 1) [1, 2, 3, 4] [5, 3, 5, 2] 5 4
    (by decide) (by decide) (by decide)⟩

/-- C8: on a non-empty list, `DeleteByValue` prints the value-not-found report if
and only if `v` does not occur in `xs`; in that case it returns the same head and
leaves the heap, hence the list, as it was. -/
theorem DeleteByValue_not_found_iff (s : State) (head : Ptr) (as : List Nat)
    (xs : List Int) (v : Int) (fuel : Nat)
    (hl : isList s.heap head as xs) (hne : xs ≠ []) (hf : xs.length ≤ fuel) :
    ∃ head' s', DeleteByValue fuel head v s = some (head', s') ∧
      (s'.out = s.out ++ ["Value " ++ toString v ++ " not found in list.\n"] ↔ v ∉ xs) ∧
      (v ∉ xs → head' = head ∧ s'.heap = s.heap ∧ isList s'.heap head' as xs) := by
  have hlen := isList_length hl
  have hne' := isList_ne_nil hl hne
  by_cases hv : v ∈ xs
  · obtain ⟨head', s', hrun, hout, -⟩ :=
      DeleteByValue_spec_found fuel hl hv (by omega)
    refine ⟨head', s', hrun, ?_, fun h => absurd hv h⟩
    constructor
    · intro h
      rw [hout] at h
      have := congrArg List.length h
      simp at this
    · intro h
      exact absurd hv h
  · exact ⟨head, _, DeleteByValue_spec_notfound hl hne' hv (by omega),
      ⟨fun _ => hv, fun _ => rfl⟩, fun _ => ⟨rfl, rfl, hl⟩⟩

/-- C8 at `DeleteByValue([1,2,3], 4)`: not found, `[1,2,3]` unchanged. -/
theorem DeleteByValue_not_found_iff_witness :
    isList state123.heap (some 10) [10, 20, 30] [1, 2, 3] ∧
    ∃ head' s', DeleteByValue 3 (some 10) 4 state123 = some (head', s') ∧
      (s'.out = ["Value 4 not found in list.\n"] ↔ (4 : Int) ∉ [1, 2, 3]) ∧
      ((4 : Int) ∉ [1, 2, 3] → head' = some 10 ∧ s'.heap = state123.heap ∧
        isList s'.heap head' [10, 20, 30] [1, 2, 3]) :=
  ⟨by decide, DeleteByValue_not_found_iff state123 (some 10) [10, 20, 30] [1, 2, 3] 4 3
    (by decide) (by decide) (by decide)⟩

/-- C9: on a non-empty list, `DeleteFromEnd` returns `xs` without its last element,
the others kept in order, and prints nothing; on a single-element list the result
is the empty list (the `NULL` head). -/
theorem DeleteFromEnd_drops_last (s : State) (head : Ptr) (as : List Nat) (xs : List Int)
    (fuel : Nat)
    (hl : isList s.heap head as xs) (hne : xs ≠ []) (hf : xs.length ≤ fuel) :
    ∃ head' s', DeleteFromEnd fuel head s = some (head', s') ∧
      isList s'.heap head' as.dropLast xs.dropLast ∧ s'.out = s.out ∧
      (xs.length = 1 → head' = none ∧ xs.dropLast = []) := by
  have hlen := isList_length hl
  have hne' := isList_ne_nil hl hne
  obtain ⟨head', s', hrun, hout, hrep⟩ :=
    DeleteFromEnd_spec fuel hl hne' (by omega)
  refine ⟨head', s', hrun, hrep, hout, ?_⟩
  intro h1
  have hx : xs.dropLast = [] := List.length_eq_zero.1 (by simp [h1])
  have ha : as.dropLast = [] := List.length_eq_zero.1 (by simp [hlen, h1])
  exact ⟨(isList_none_iff hrep).2 ha, hx⟩

/-- C9 at `DeleteFromEnd([7]) = []`. -/
theorem DeleteFromEnd_drops_last_witness :
    isList state7.heap (some 1) [1] [7] ∧
    ∃ head' s', DeleteFromEnd 1 (some 1) state7 = some (head', s') ∧
      isList s'.heap head' [] [] ∧ s'.out = [] ∧
      ([(7 : Int)].length = 1 → head' = none ∧ [(7 : Int)].dropLast = []) :=
  ⟨by decide, DeleteFromEnd_drops_last state7 (some 1) [1] [7] 1
    (by decide) (by decide) (by decide)⟩

/-- C10: for every list `xs`, empty or not (allocation succeeding, `a` being the
fresh cell), `InsertAtEnd` returns all of `xs` in order followed by `v` as the last
element and prints nothing; the head is unchanged when `xs` is non-empty, and on the
empty list the new cell is the head, so the result is `[v]`. -/
theorem InsertAtEnd_appends (s : State) (head : Ptr) (as : List Nat) (xs : List Int)
    (a : Nat) (v : Int) (fuel : Nat)
    (hl : isList s.heap head as xs) (ha : s.heap a = none) (hf : xs.length ≤ fuel) :
    ∃ head' s', InsertAtEnd fuel (some a) head v s = some (head', s') ∧
      isList s'.heap head' (as ++ [a]) (xs ++ [v]) ∧ s'.out = s.out ∧
      (xs = [] → head' = some a ∧ xs ++ [v] = [v]) ∧ (xs ≠ [] → head' = head) := by
  have hlen := isList_length hl
  obtain ⟨head', s', hrun, hout, hrep, he, hn⟩ :=
    InsertAtEnd_spec fuel v hl ha (by omega)
  refine ⟨head', s', hrun, hrep, hout, ?_, fun h => hn (isList_ne_nil hl h)⟩
  rintro rfl
  exact ⟨he (List.length_eq_zero.1 hlen), rfl⟩

/-- C10 at `InsertAtEnd([], 9) = [9]`. -/
theorem InsertAtEnd_appends_witness :
    isList stateEmpty.heap none [] [] ∧
    ∃ head' s', InsertAtEnd 0 (some 1) none 9 stateEmpty = some (head', s') ∧
      isList s'.heap head' [1] [9] ∧ s'.out = [] ∧
      (([] : List Int) = [] → head' = some 1 ∧ ([] : List Int) ++ [9] = [9]) ∧
      (([] : List Int) ≠ [] → head' = none) :=
  ⟨by decide, InsertAtEnd_appends stateEmpty none [] [] 1 9 0
    (by decide) (by decide) (by decide)⟩

/-! ## Lemmas for display, release, bulk construction and round trips -/

theorem InsertAtPos_refused {s : State} {head : Ptr} {as : List Nat} {xs : List Int}
    (fuel : Nat) (v pos : Int) (hl : isList s.heap head as xs) (hf : as.length ≤ fuel) :
    InsertAtPos fuel none head v pos s =
      some (head, s.print "Memory error: could not create node.\n") := by
  by_cases hp : pos ≤ 1 ∨ head = none
  · simp [InsertAtPos, hp, InsertAtStart, CreateNode]
  · have hne : as ≠ [] := fun e => hp (Or.inr ((isList_none_iff hl).2 e))
    have hw := walkToPos_eq pos fuel 1 hl hne hf
    have h0 : as.length ≠ 0 := by simpa using hne
    have hlt : min (pos - 1 - 1).toNat (as.length - 1) < as.length := by omega
    rw [List.getElem?_eq_getElem hlt] at hw
    simp [InsertAtPos, hp, hw, CreateNode]

theorem Heap_remove_set (h : Heap) (a : Nat) (n : Node) (ha : h a = none) :
    (h.set a n).remove a = h := by
  funext b
  by_cases hb : b = a
  · subst hb; simp [Heap.remove, ha]
  · simp [Heap.remove, Heap.set, hb]

theorem insert_then_DeleteByValue (m : Ptr) (v : Int) (fuel : Nat) (s : State) :
    ∃ s', (InsertAtStart m none v s).bind (fun r => DeleteByValue fuel r.1 v r.2)
        = some (none, s') ∧
      ∀ a, m = some a → s.heap a = none → s' = s := by
  cases m with
  | none =>
    exact ⟨(s.print "Memory error: could not create node.\n").print
      "List is empty, nothing to delete.\n",
      by simp [InsertAtStart, CreateNode, DeleteByValue], fun a h => by cases h⟩
  | some a =>
    refine ⟨⟨(s.heap.set a ⟨v, none⟩).remove a, s.out⟩, ?_, ?_⟩
    · simp [InsertAtStart_run, DeleteByValue, getData, DeleteFromStart, getNext, free]
    · intro b hb hfree
      cases hb
      rw [Heap_remove_set _ _ _ hfree]

/-- The loop of `PrintList` prints every value of the list once, in order, and
leaves the heap as it was. -/
theorem PrintList_loop_eq : ∀ (fuel : Nat) {cur : Ptr} {as : List Nat} {xs : List Int}
    (s : State), isList s.heap cur as xs → as.length < fuel →
    PrintList.loop fuel cur s =
      some { heap := s.heap, out := s.out ++ xs.map (fun v => toString v ++ " ") }
  | 0, _, _, _, _, _, hf => by omega
  | fuel + 1, cur, as, xs, s, hl, hf => by
    by_cases hne : as = []
    · subst hne
      have hxs : xs = [] := List.length_eq_zero.1 (isList_length hl).symm
      have hcur : cur = none := (isList_none_iff hl).2 rfl
      simp [PrintList.loop, hxs, hcur]
    · obtain ⟨c, as', x, xs', nx, rfl, rfl, rfl, hc, ht⟩ := isList_cons_inv hl hne
      have ht' : isList (s.print (toString x ++ " ")).heap nx as' xs' := ht
      simp only [PrintList.loop, getData, getNext, hc, Option.map_some', Option.bind_eq_bind,
        Option.some_bind, ne_eq, reduceCtorEq, not_false_eq_true, if_true]
      rw [PrintList_loop_eq fuel _ ht' (by simpa using hf)]
      simp [State.print]

/-- The loop of `PrintList` only adds to what was printed. -/
theorem PrintList_loop_out : ∀ (fuel : Nat) (cur : Ptr) (s s' : State),
    PrintList.loop fuel cur s = some s' → s.out.length ≤ s'.out.length
  | 0, _, _, _, h => by simp [PrintList.loop] at h
  | fuel + 1, cur, s, s', h => by
    by_cases hc : cur = none
    · simp [PrintList.loop, hc] at h
      subst h
      exact Nat.le_refl _
    · simp only [PrintList.loop, ne_eq, hc, not_false_eq_true, if_true, Option.bind_eq_bind,
        Option.bind_eq_some] at h
      obtain ⟨d, -, nx, -, hrec⟩ := h
      have := PrintList_loop_out fuel nx _ s' hrec
      simp [State.print] at this
      omega

/-- The loop of `FreeList` releases exactly the cells of the list. -/
theorem FreeList_loop_eq : ∀ (fuel : Nat) {cur : Ptr} {as : List Nat} {xs : List Int}
    (h : Heap), isList h cur as xs → as.length < fuel →
    ∃ h', FreeList.loop fuel cur h = some h' ∧ (∀ b ∈ as, h' b = none) ∧
      ∀ b, b ∉ as → h' b = h b
  | 0, _, _, _, _, _, hf => by omega
  | fuel + 1, cur, as, xs, h, hl, hf => by
    by_cases hne : as = []
    · subst hne
      have hcur : cur = none := (isList_none_iff hl).2 rfl
      exact ⟨h, by simp [FreeList.loop, hcur], by simp, fun _ _ => rfl⟩
    · obtain ⟨c, as', x, xs', nx, rfl, rfl, rfl, hc, -⟩ := isList_cons_inv hl hne
      obtain ⟨nx', -, hc', ht⟩ := isList_pop hl
      rw [hc] at hc'
      cases hc'
      obtain ⟨h', hrun, hrel, hkeep⟩ := FreeList_loop_eq fuel (h.remove c) ht (by simpa using hf)
      refine ⟨h', ?_, ?_, ?_⟩
      · simp [FreeList.loop, getNext, free, hc, hrun]
      · intro b hb
        by_cases hbas : b ∈ as'
        · exact hrel b hbas
        · have hbc : b = c := by
            rcases List.mem_cons.1 hb with e | e
            · exact e
            · exact absurd e hbas
          rw [hkeep b hbas, hbc]
          simp
      · intro b hb
        have hbc : b ≠ c := fun e => hb (by simp [e])
        have hbas : b ∉ as' := fun e => hb (by simp [e])
        rw [hkeep b hbas, Heap_remove_other _ hbc]

/-- `PrintList` on a pointer to a released cell is undefined. -/
theorem PrintList_released (fuel : Nat) (c : Nat) (s : State) (hc : s.heap c = none) :
    PrintList fuel (some c) s = none := by
  cases fuel with
  | zero => simp [PrintList, PrintList.loop]
  | succ k => simp [PrintList, PrintList.loop, getData, State.print, hc]

/-- `InsertAtEnd` with a fresh cell: the result, and the cells it leaves unused. -/
theorem InsertAtEnd_spec_fresh (fuel : Nat) {s : State} {head : Ptr} {as : List Nat}
    {xs : List Int} {a : Nat} (v : Int)
    (hl : isList s.heap head as xs) (ha : s.heap a = none) (hf : as.length ≤ fuel) :
    ∃ head' s', InsertAtEnd fuel (some a) head v s = some (head', s') ∧
      isList s'.heap head' (as ++ [a]) (xs ++ [v]) ∧
      ∀ b, b ≠ a → s.heap b = none → s'.heap b = none := by
  obtain ⟨head', s', hrun, -, hrep, -, -⟩ := InsertAtEnd_spec fuel v hl ha hf
  refine ⟨head', s', hrun, hrep, ?_⟩
  intro b hba hb
  by_cases hne : as = []
  · subst hne
    have hh : head = none := (isList_none_iff hl).2 rfl
    subst hh
    have : InsertAtEnd fuel (some a) none v s =
        some (some a, ⟨s.heap.set a ⟨v, none⟩, s.out⟩) := by
      simp [InsertAtEnd, CreateNode]
    rw [this] at hrun
    cases hrun
    simp [Heap_set_other _ _ hba, hb]
  · obtain ⟨c, x, -, hc, hrun'⟩ := InsertAtEnd_run v hl hne ha hf
    rw [hrun'] at hrun
    cases hrun
    have hbc : b ≠ c := by rintro rfl; simp [hc] at hb
    simp [Heap_set_other _ _ hbc, Heap_set_other _ _ hba, hb]

theorem valuesBeforeInvalid_takeWhile : ∀ l : List (Option Int),
    (valuesBeforeInvalid l).map some = l.takeWhile (fun r => r.isSome)
  | [] => rfl
  | none :: _ => by simp [valuesBeforeInvalid]
  | some v :: rest => by simp [valuesBeforeInvalid, valuesBeforeInvalid_takeWhile rest]

/-- The `for` loop of `CreateList`, entered with counter `i` on a list `xs`, appends
the values read before the first invalid one among the next `n - i` readings. -/
theorem CreateList_loop_spec (fuel : Nat) (n : Int) : ∀ (k : Nat)
    (reads : List (Option Int)) (addrs : List Nat) (i : Int) (head : Ptr) (s : State)
    (as : List Nat) (xs : List Int),
    isList s.heap head as xs → (∀ a ∈ addrs, s.heap a = none) → addrs.Nodup →
    (n - i).toNat < k → as.length + (n - i).toNat ≤ fuel → (n - i).toNat ≤ addrs.length →
    ∃ head' s', CreateList.loop fuel n k reads (addrs.map some) i head s = some (head', s') ∧
      isList s'.heap head'
        (as ++ addrs.take (valuesBeforeInvalid (reads.take (n - i).toNat)).length)
        (xs ++ valuesBeforeInvalid (reads.take (n - i).toNat))
  | 0, _, _, _, _, _, _, _, _, _, _, hk, _, _ => by omega
  | k + 1, reads, addrs, i, head, s, as, xs, hl, hfresh, hnd, hk, hfuel, hlen => by
    by_cases hin : i < n
    · obtain ⟨r, hr⟩ : ∃ r, (n - i).toNat = r + 1 := ⟨(n - i).toNat - 1, by omega⟩
      have hr' : (n - (i + 1)).toNat = r := by omega
      rw [hr] at hk hfuel hlen ⊢
      cases reads with
      | nil =>
        exact ⟨head, (s.print ("Enter value for node " ++ toString (i + 1) ++ ": ")).print
          "Invalid input. Stopping creation.\n", by simp [CreateList.loop, hin],
          by simpa [valuesBeforeInvalid] using hl⟩
      | cons rd rest =>
        cases rd with
        | none =>
          exact ⟨head, (s.print ("Enter value for node " ++ toString (i + 1) ++ ": ")).print
            "Invalid input. Stopping creation.\n", by simp [CreateList.loop, hin],
            by simpa [valuesBeforeInvalid] using hl⟩
        | some v =>
          cases addrs with
          | nil => simp at hlen
          | cons a addrs' =>
            have hnd' := List.nodup_cons.1 hnd
            have hl' : isList (s.print
                ("Enter value for node " ++ toString (i + 1) ++ ": ")).heap head as xs := hl
            obtain ⟨head1, s1, hrun, hrep, hfr⟩ :=
              InsertAtEnd_spec_fresh fuel v hl' (hfresh a (by simp)) (by omega)
            have hfresh1 : ∀ b ∈ addrs', s1.heap b = none := by
              intro b hb
              have hba : b ≠ a := by rintro rfl; exact hnd'.1 hb
              exact hfr b hba (hfresh b (by simp [hb]))
            obtain ⟨head', s', hrec, hrep'⟩ :=
              CreateList_loop_spec fuel n k rest addrs' (i + 1) head1 s1 (as ++ [a]) (xs ++ [v])
                hrep hfresh1 hnd'.2 (by omega) (by simp; omega) (by simp at hlen; omega)
            rw [hr'] at hrep'
            refine ⟨head', s', ?_, ?_⟩
            · simp only [CreateList.loop, hin, if_true, List.map_cons, List.headD_cons,
                List.tail_cons]
              rw [hrun]
              exact hrec
            · simpa [valuesBeforeInvalid] using hrep'
    · have h0 : (n - i).toNat = 0 := by omega
      rw [h0]
      exact ⟨head, s, by simp [CreateList.loop, hin], by simpa [valuesBeforeInvalid] using hl⟩

theorem eraseIdx_insert (l : List Nat) (a : Nat) (k : Nat) (hk : k ≤ l.length) :
    (l.take k ++ a :: l.drop k).eraseIdx k = l := by
  have hlt : (l.take k).length = k := by simp [List.length_take, hk]
  rw [List.eraseIdx_append_of_length_le (by omega)]
  simp [hlt]

theorem eraseIdx_insert_int (l : List Int) (a : Int) (k : Nat) (hk : k ≤ l.length) :
    (l.take k ++ a :: l.drop k).eraseIdx k = l := by
  have hlt : (l.take k).length = k := by simp [List.length_take, hk]
  rw [List.eraseIdx_append_of_length_le (by omega)]
  simp [hlt]

/-! ## The claims on the empty list, allocation, input and display -/

/-- C11: on the empty list each of `DeleteFromStart`, `DeleteFromEnd`, `DeleteAtPos`
(for every `pos`) and `DeleteByValue` (for every value) returns normally, whatever
the fuel: it returns the head it was given, which is `NULL`, leaves the heap as it
was, so the list is still empty, and prints the nothing-to-delete report. -/
theorem delete_on_empty_reports (s : State) (head : Ptr) (as : List Nat) (pos v : Int)
    (fuel : Nat) (hl : isList s.heap head as []) :
    ∃ s', DeleteFromStart head s = some (head, s') ∧
      DeleteFromEnd fuel head s = some (head, s') ∧
      DeleteAtPos fuel head pos s = some (head, s') ∧
      DeleteByValue fuel head v s = some (head, s') ∧
      head = none ∧ s'.heap = s.heap ∧ isList s'.heap head as [] ∧
      s'.out = s.out ++ ["List is empty, nothing to delete.\n"] := by
  have has : as = [] := List.length_eq_zero.1 (isList_length hl)
  have hh : head = none := (isList_none_iff hl).2 has
  refine ⟨s.print "List is empty, nothing to delete.\n", ?_, ?_, ?_, ?_, hh, rfl, hl, rfl⟩
  · simp [DeleteFromStart, hh]
  · simp [DeleteFromEnd, hh]
  · simp [DeleteAtPos, hh]
  · simp [DeleteByValue, hh]

/-- C11 at the empty list, with `pos = 3` and the value 5. -/
theorem delete_on_empty_reports_witness :
    isList stateEmpty.heap none [] [] ∧
    ∃ s', DeleteFromStart none stateEmpty = some (none, s') ∧
      DeleteFromEnd 0 none stateEmpty = some (none, s') ∧
      DeleteAtPos 0 none 3 stateEmpty = some (none, s') ∧
      DeleteByValue 0 none 5 stateEmpty = some (none, s') ∧
      (none : Ptr) = none ∧ s'.heap = stateEmpty.heap ∧ isList s'.heap none [] [] ∧
      s'.out = ["List is empty, nothing to delete.\n"] :=
  ⟨by decide, delete_on_empty_reports stateEmpty none [] 3 5 0 (by decide)⟩

/-- C12: when `malloc` refuses the allocation (`CreateNode` gets `NULL`), each of
`InsertAtStart`, `InsertAtEnd` and `InsertAtPos` returns the head it was given and
leaves the heap as it was, so the list is unchanged and no link is modified; the only
effect is the memory-error line. -/
theorem insert_refused_leaves_list (s : State) (head : Ptr) (as : List Nat)
    (xs : List Int) (v pos : Int) (fuel : Nat)
    (hl : isList s.heap head as xs) (hf : xs.length ≤ fuel) :
    ∃ s', InsertAtStart none head v s = some (head, s') ∧
      InsertAtEnd fuel none head v s = some (head, s') ∧
      InsertAtPos fuel none head v pos s = some (head, s') ∧
      s'.heap = s.heap ∧ isList s'.heap head as xs ∧
      s'.out = s.out ++ ["Memory error: could not create node.\n"] := by
  have hlen := isList_length hl
  refine ⟨s.print "Memory error: could not create node.\n", ?_, ?_,
    InsertAtPos_refused fuel v pos hl (by omega), rfl, hl, rfl⟩
  · simp [InsertAtStart, CreateNode]
  · simp [InsertAtEnd, CreateNode]

/-- C12 at `[1,2,3]` with `pos = 2`: all three inserts return `[1,2,3]`. -/
theorem insert_refused_leaves_list_witness :
    isList state123.heap (some 10) [10, 20, 30] [1, 2, 3] ∧
    ∃ s', InsertAtStart none (some 10) 9 state123 = some (some 10, s') ∧
      InsertAtEnd 3 none (some 10) 9 state123 = some (some 10, s') ∧
      InsertAtPos 3 none (some 10) 9 2 state123 = some (some 10, s') ∧
      s'.heap = state123.heap ∧ isList s'.heap (some 10) [10, 20, 30] [1, 2, 3] ∧
      s'.out = ["Memory error: could not create node.\n"] :=
  ⟨by decide, insert_refused_leaves_list state123 (some 10) [10, 20, 30] [1, 2, 3] 9 2 3
    (by decide) (by decide)⟩

/-- C13, as the code has it: with the input given as the sequence `reads` of readings
(`some v` valid, `none` invalid, end of input after the last) and every allocation
succeeding (the `malloc` calls return the distinct unused cells `addrs`, in this
order), `CreateList(n)` returns the list of the values read before the first invalid
reading among the first `n` readings, in input order and in the cells handed out so
far: all of them when no reading is invalid, and the values appended before an
invalid reading are kept. -/
theorem CreateList_values_before_invalid (s : State) (reads : List (Option Int))
    (addrs : List Nat) (n : Int) (fuel : Nat)
    (hfresh : ∀ a ∈ addrs, s.heap a = none) (hnd : addrs.Nodup)
    (hlen : n.toNat ≤ addrs.length) (hf : n.toNat < fuel) :
    ∃ head' s', CreateList fuel reads (addrs.map some) n s = some (head', s') ∧
      isList s'.heap head'
        (addrs.take (valuesBeforeInvalid (reads.take n.toNat)).length)
        (valuesBeforeInvalid (reads.take n.toNat)) ∧
      (valuesBeforeInvalid (reads.take n.toNat)).map some =
        (reads.take n.toNat).takeWhile (fun r => r.isSome) := by
  have hl : isList s.heap none [] [] := by simp [isList]
  have e : (n - 0).toNat = n.toNat := by simp
  obtain ⟨head', s', hrun, hrep⟩ :=
    CreateList_loop_spec fuel n fuel reads addrs 0 none s [] [] hl hfresh hnd
      (by omega) (by simp; omega) (by omega)
  rw [e] at hrep
  exact ⟨head', s', hrun, by simpa using hrep, valuesBeforeInvalid_takeWhile _⟩

/-- C13 at `n = 3`: the inputs `10, 20, 30` give `[10,20,30]`, and with the second
input invalid the result is `[10]`. -/
theorem CreateList_values_before_invalid_witness :
    (∃ head' s', CreateList 4 [some 10, some 20, some 30] [some 1, some 2, some 3] 3
        stateEmpty = some (head', s') ∧
      isList s'.heap head' [1, 2, 3] [10, 20, 30] ∧
      [some 10, some 20, some 30] = [some (10 : Int), some 20, some 30]) ∧
    (∃ head' s', CreateList 4 [some 10, none, some 30] [some 1, some 2, some 3] 3
        stateEmpty = some (head', s') ∧
      isList s'.heap head' [1] [10] ∧
      [some 10] = [some (10 : Int)]) :=
  ⟨CreateList_values_before_invalid stateEmpty [some 10, some 20, some 30] [1, 2, 3] 3 4
      (by decide) (by decide) (by decide) (by decide),
    CreateList_values_before_invalid stateEmpty [some 10, none, some 30] [1, 2, 3] 3 4
      (by decide) (by decide) (by decide) (by decide)⟩

/-- C13 as stated fails when an allocation is refused: with the readings `10, 20, 30`,
none invalid, and the second `malloc` returning `NULL`, `CreateList(3)` returns the
list `[10, 30]`: `InsertAtEnd` leaves the list as it was for the value 20 and the loop
goes on, so the result is not the list `[10, 20, 30]` of the values read. -/
theorem CreateList_refused_allocation_drops_value :
    valuesBeforeInvalid ([some 10, some 20, some 30].take (3 : Int).toNat) = [10, 20, 30] ∧
    ∃ head' s', CreateList 4 [some 10, some 20, some 30] [some 1, none, some 3] 3
        stateEmpty = some (head', s') ∧
      isList s'.heap head' [1, 3] [10, 30] ∧
      (∀ as, ¬ isList s'.heap head' as [10, 20, 30]) ∧
      s'.out = ["Enter value for node 1: ", "Enter value for node 2: ",
        "Memory error: could not create node.\n", "Enter value for node 3: "] := by
  refine ⟨by decide, _, _, rfl, by decide, ?_, by decide⟩
  intro as h
  have h2 := (isList_unique h (show isList _ _ [1, 3] [10, 30] by decide)).2
  simp at h2

/-- C14: inserting `v` into the empty list (the `NULL` head) by `InsertAtStart`, by
`InsertAtEnd` or by `InsertAtPos` with any position, and then calling `DeleteByValue`
with the same `v` on the result, returns the empty list, whatever `malloc` returns
and whatever the fuel; all three compositions give the same state, and when the
allocation succeeded with a cell not in use the final state is the initial one. -/
theorem insert_delete_same_value_on_empty (m : Ptr) (v pos : Int) (fuel : Nat) (s : State) :
    ∃ s', (InsertAtStart m none v s).bind (fun r => DeleteByValue fuel r.1 v r.2)
        = some (none, s') ∧
      (InsertAtEnd fuel m none v s).bind (fun r => DeleteByValue fuel r.1 v r.2)
        = some (none, s') ∧
      (InsertAtPos fuel m none v pos s).bind (fun r => DeleteByValue fuel r.1 v r.2)
        = some (none, s') ∧
      ∀ a, m = some a → s.heap a = none → s' = s := by
  obtain ⟨s', h1, h2⟩ := insert_then_DeleteByValue m v fuel s
  have hend : InsertAtEnd fuel m none v s = InsertAtStart m none v s := by
    cases m with
    | none => simp [InsertAtEnd, InsertAtStart, CreateNode]
    | some a => simp [InsertAtEnd, InsertAtStart_run, CreateNode]
  have hpos : InsertAtPos fuel m none v pos s = InsertAtStart m none v s := by
    simp [InsertAtPos]
  exact ⟨s', h1, by rw [hend, h1], by rw [hpos, h1], h2⟩

/-- C15, as the code has it: `FreeList(head)` releases every cell of the list and no
other, and prints nothing; `PrintList` on the handle reset to `NULL`, as `main` does
after `FreeList` (`head = NULL`), then prints the empty-list line.  On the handle
itself this holds when the list was empty; for a non-empty list the handle still
points to a released cell and `PrintList` on it is undefined. -/
theorem FreeList_then_reset_PrintList (s : State) (head : Ptr) (as : List Nat)
    (xs : List Int) (fuel : Nat) (hl : isList s.heap head as xs) (hf : xs.length < fuel) :
    ∃ s1, FreeList fuel head s = some s1 ∧ s1.out = s.out ∧
      (∀ b ∈ as, s1.heap b = none) ∧ (∀ b, b ∉ as → s1.heap b = s.heap b) ∧
      isList s1.heap none [] [] ∧
      PrintList fuel none s1 = some (s1.print "List is empty.\n") ∧
      (xs = [] → PrintList fuel head s1 = some (s1.print "List is empty.\n")) ∧
      (xs ≠ [] → PrintList fuel head s1 = none) := by
  have hlen := isList_length hl
  obtain ⟨h', hrun, hrel, hkeep⟩ := FreeList_loop_eq fuel s.heap hl (by omega)
  refine ⟨⟨h', s.out⟩, by simp [FreeList, hrun], rfl, hrel, hkeep, by simp [isList],
    by simp [PrintList], ?_, ?_⟩
  · intro hxs
    subst hxs
    have hh : head = none := (isList_none_iff hl).2 (List.length_eq_zero.1 hlen)
    simp [PrintList, hh]
  · intro hxs
    obtain ⟨c, as', x, xs', nx, rfl, rfl, rfl, hc, -⟩ :=
      isList_cons_inv hl (isList_ne_nil hl hxs)
    exact PrintList_released fuel c _ (hrel c (by simp))

/-- C15 amended, at the list `[1,2,3]`. -/
theorem FreeList_then_reset_PrintList_witness :
    isList state123.heap (some 10) [10, 20, 30] [1, 2, 3] ∧
    ∃ s1, FreeList 4 (some 10) state123 = some s1 ∧ s1.out = [] ∧
      (∀ b ∈ [10, 20, 30], s1.heap b = none) ∧
      (∀ b, b ∉ [10, 20, 30] → s1.heap b = state123.heap b) ∧
      isList s1.heap none [] [] ∧
      PrintList 4 none s1 = some (s1.print "List is empty.\n") ∧
      (([1, 2, 3] : List Int) = [] →
        PrintList 4 (some 10) s1 = some (s1.print "List is empty.\n")) ∧
      (([1, 2, 3] : List Int) ≠ [] → PrintList 4 (some 10) s1 = none) :=
  ⟨by decide, FreeList_then_reset_PrintList state123 (some 10) [10, 20, 30] [1, 2, 3] 4
    (by decide) (by decide)⟩

/-- C15 as stated fails at the list `[7]` held in cell 1: `FreeList` on the handle
`some 1` returns normally, and `PrintList` on the same handle afterwards, whatever the
fuel, does not print the empty-list line (the handle is not `NULL`; the cell it points
to is released, so the call is undefined). -/
theorem FreeList_then_PrintList_same_handle_fails :
    isList state7.heap (some 1) [1] [7] ∧
    (∃ s1, FreeList 2 (some 1) state7 = some s1 ∧
      s1.heap 1 = none ∧
      ∀ fuel, PrintList fuel (some 1) s1 = none ∧
        PrintList fuel (some 1) s1 ≠ some (s1.print "List is empty.\n")) := by
  refine ⟨by decide, ⟨state7.heap.remove 1, []⟩, rfl, by decide, ?_⟩
  intro fuel
  have h := PrintList_released fuel 1 ⟨state7.heap.remove 1, []⟩ (by decide)
  exact ⟨h, by rw [h]; simp⟩

/-- C16: `PrintList` prints the empty-list line if and only if the list is empty;
otherwise it prints `"List: "`, then every stored value once, in head-to-tail order,
each followed by a space, then a newline.  In both cases the heap, hence the list, is
left as it was. -/
theorem PrintList_prints_values (s : State) (head : Ptr) (as : List Nat) (xs : List Int)
    (fuel : Nat) (hl : isList s.heap head as xs) (hf : xs.length < fuel) :
    ∃ s', PrintList fuel head s = some s' ∧
      s'.heap = s.heap ∧ isList s'.heap head as xs ∧
      (s'.out = s.out ++ ["List is empty.\n"] ↔ xs = []) ∧
      (xs ≠ [] →
        s'.out = s.out ++ ["List: "] ++ xs.map (fun v => toString v ++ " ") ++ ["\n"]) := by
  have hlen := isList_length hl
  by_cases hxs : xs = []
  · subst hxs
    have has : as = [] := List.length_eq_zero.1 hlen
    have hh : head = none := (isList_none_iff hl).2 has
    refine ⟨s.print "List is empty.\n", by simp [PrintList, hh], rfl, hl, ?_, ?_⟩
    · simp [State.print]
    · intro h; exact absurd rfl h
  · have has : as ≠ [] := isList_ne_nil hl hxs
    have hh : head ≠ none := fun e => has ((isList_none_iff hl).1 e)
    have hl' : isList (s.print "List: ").heap head as xs := hl
    have hloop := PrintList_loop_eq fuel (s.print "List: ") hl' (by omega)
    refine ⟨⟨s.heap, s.out ++ ["List: "] ++ xs.map (fun v => toString v ++ " ") ++ ["\n"]⟩,
      ?_, rfl, hl, ?_, fun _ => rfl⟩
    · simp only [PrintList, hh, if_false, hloop, Option.bind_eq_bind, Option.some_bind]
      simp [State.print]
    · constructor
      · intro h
        have := congrArg List.length h
        simp at this
      · intro h; exact absurd h hxs

/-- C16 at `PrintList([1,2,3])`. -/
theorem PrintList_prints_values_witness :
    isList state123.heap (some 10) [10, 20, 30] [1, 2, 3] ∧
    ∃ s', PrintList 4 (some 10) state123 = some s' ∧
      s'.heap = state123.heap ∧ isList s'.heap (some 10) [10, 20, 30] [1, 2, 3] ∧
      (s'.out = ["List is empty.\n"] ↔ ([1, 2, 3] : List Int) = []) ∧
      (([1, 2, 3] : List Int) ≠ [] → s'.out = ["List: ", "1 ", "2 ", "3 ", "\n"]) :=
  ⟨by decide, PrintList_prints_values state123 (some 10) [10, 20, 30] [1, 2, 3] 4
    (by decide) (by decide)⟩

/-- C18: insert at `pos`, then delete at `pos` (allocation succeeding, `a` being the
fresh cell).  When `pos ≤ length + 1` the composition gives back `xs`, in its own
cells, and prints nothing; when `pos > length + 1` the insert appends `v` and the
delete rejects the position, so the result is `xs` with `v` appended and the
out-of-range line is printed.  Hence the result is `xs` exactly when
`pos ≤ length + 1`. -/
theorem InsertAtPos_then_DeleteAtPos (s : State) (head : Ptr) (as : List Nat)
    (xs : List Int) (a : Nat) (v pos : Int) (fuel : Nat)
    (hl : isList s.heap head as xs) (ha : s.heap a = none) (hf : xs.length < fuel) :
    ∃ head1 s1 head2 s2 bs ys,
      InsertAtPos fuel (some a) head v pos s = some (head1, s1) ∧
      DeleteAtPos fuel head1 pos s1 = some (head2, s2) ∧
      isList s2.heap head2 bs ys ∧
      (pos ≤ (xs.length : Int) + 1 → bs = as ∧ ys = xs ∧ s2.out = s.out) ∧
      ((xs.length : Int) + 1 < pos → bs = as ++ [a] ∧ ys = xs ++ [v] ∧
        s2.out = s.out ++
          ["Position " ++ toString pos ++ " out of range. No deletion performed.\n"]) ∧
      (ys = xs ↔ pos ≤ (xs.length : Int) + 1) := by
  have hlen := isList_length hl
  have happ : xs ++ [v] ≠ xs := by
    intro h
    have := congrArg List.length h
    simp at this
  by_cases hp : pos ≤ 1 ∨ head = none
  · have hins : InsertAtPos fuel (some a) head v pos s =
        some (some a, ⟨s.heap.set a ⟨v, head⟩, s.out⟩) := by
      simp [InsertAtPos, hp, InsertAtStart_run]
    have hl1 : isList (s.heap.set a ⟨v, head⟩) (some a) (a :: as) (v :: xs) :=
      isList_push v hl ha
    by_cases hp1 : pos ≤ 1
    · obtain ⟨head2, s2, hdel, hout, hrep⟩ :=
        DeleteFromStart_spec (s := ⟨s.heap.set a ⟨v, head⟩, s.out⟩) hl1
      refine ⟨some a, _, head2, s2, as, xs, hins, ?_, hrep, fun _ => ⟨rfl, rfl, hout⟩,
        fun h => by omega, ⟨fun _ => by omega, fun _ => rfl⟩⟩
      simp [DeleteAtPos, hp1, hdel]
    · have hh : head = none := by
        rcases hp with h | h
        · exact absurd h hp1
        · exact h
      have has : as = [] := (isList_none_iff hl).1 hh
      subst has
      have hxs : xs = [] := List.length_eq_zero.1 hlen.symm
      subst hxs
      have hq : (([a] : List Nat).length : Int) < pos := by simp; omega
      have hq' : ([a] : List Nat).length ≤ fuel := by simp; omega
      have hdel := DeleteAtPos_spec_out (s := ⟨s.heap.set a ⟨v, head⟩, s.out⟩) hl1 (by simp)
        hq hq'
      refine ⟨some a, _, some a, _, [a], [v], hins, hdel, hl1,
        fun h => by simp at h; omega, fun _ => ⟨rfl, rfl, rfl⟩,
        ⟨fun h => by simp at h, fun h => by simp at h; omega⟩⟩
  · have hpos : 1 < pos := by
      by_contra hc
      exact hp (Or.inl (by omega))
    have hne : as ≠ [] := fun e => hp (Or.inr ((isList_none_iff hl).2 e))
    obtain ⟨s1, hins, hout1, hrep1⟩ := InsertAtPos_spec fuel v hl hne hpos ha (by omega)
    by_cases hin : pos ≤ (xs.length : Int) + 1
    · have e : min (pos - 1).toNat as.length = (pos - 1).toNat := by omega
      rw [e] at hrep1
      have hk : (pos - 1).toNat ≤ as.length := by omega
      have hk' : (pos - 1).toNat ≤ xs.length := by omega
      obtain ⟨s2, hdel, hout2, hrep2⟩ := DeleteAtPos_spec_in fuel hrep1 hpos
        (by simp [List.length_take, List.length_drop]; omega)
        (by simp [List.length_take, List.length_drop]; omega)
      rw [eraseIdx_insert as a _ hk, eraseIdx_insert_int xs v _ hk'] at hrep2
      exact ⟨head, s1, head, s2, as, xs, hins, hdel, hrep2,
        fun _ => ⟨rfl, rfl, by rw [hout2, hout1]⟩, fun h => by omega,
        ⟨fun _ => hin, fun _ => rfl⟩⟩
    · have e : min (pos - 1).toNat as.length = as.length := by omega
      rw [e] at hrep1
      have e2 : xs.take as.length = xs := List.take_of_length_le (by omega)
      have e3 : xs.drop as.length = [] := List.drop_eq_nil_of_le (by omega)
      rw [List.take_length, List.drop_length, e2, e3] at hrep1
      have hq : ((as ++ [a]).length : Int) < pos := by simp; omega
      have hq' : (as ++ [a]).length ≤ fuel := by simp; omega
      have hdel := DeleteAtPos_spec_out hrep1 (by simp) hq hq'
      refine ⟨head, s1, head, _, as ++ [a], xs ++ [v], hins, hdel, hrep1,
        fun h => absurd h hin, fun _ => ⟨rfl, rfl, by simp [State.print, hout1]⟩,
        ⟨fun h => absurd h happ, fun h => absurd h hin⟩⟩

/-- C18 at `[1,2,3]` and `v = 9`: with `pos = 2` the round trip gives back `[1,2,3]`,
with `pos = 100` it gives `[1,2,3,9]` and the out-of-range line. -/
theorem InsertAtPos_then_DeleteAtPos_witness :
    isList state123.heap (some 10) [10, 20, 30] [1, 2, 3] ∧
    (∃ head1 s1 head2 s2 bs ys,
      InsertAtPos 4 (some 40) (some 10) 9 2 state123 = some (head1, s1) ∧
      DeleteAtPos 4 head1 2 s1 = some (head2, s2) ∧
      isList s2.heap head2 bs ys ∧
      ((2 : Int) ≤ 3 + 1 → bs = [10, 20, 30] ∧ ys = [1, 2, 3] ∧ s2.out = []) ∧
      ((3 : Int) + 1 < 2 → bs = [10, 20, 30, 40] ∧ ys = [1, 2, 3, 9] ∧
        s2.out = ["Position 2 out of range. No deletion performed.\n"]) ∧
      (ys = [1, 2, 3] ↔ (2 : Int) ≤ 3 + 1)) ∧
    (∃ head1 s1 head2 s2 bs ys,
      InsertAtPos 4 (some 40) (some 10) 9 100 state123 = some (head1, s1) ∧
      DeleteAtPos 4 head1 100 s1 = some (head2, s2) ∧
      isList s2.heap head2 bs ys ∧
      ((100 : Int) ≤ 3 + 1 → bs = [10, 20, 30] ∧ ys = [1, 2, 3] ∧ s2.out = []) ∧
      ((3 : Int) + 1 < 100 → bs = [10, 20, 30, 40] ∧ ys = [1, 2, 3, 9] ∧
        s2.out = ["Position 100 out of range. No deletion performed.\n"]) ∧
      (ys = [1, 2, 3] ↔ (100 : Int) ≤ 3 + 1)) :=
  ⟨by decide,
    InsertAtPos_then_DeleteAtPos state123 (some 10) [10, 20, 30] [1, 2, 3] 40 9 2 4
      (by decide) (by decide) (by decide),
    InsertAtPos_then_DeleteAtPos state123 (some 10) [10, 20, 30] [1, 2, 3] 40 9 100 4
      (by decide) (by decide) (by decide)⟩

end LinkedList

namespace DeletionEnd

open LinkedList

theorem deleteAtEnd_loop_eq (h : Heap) : ∀ (fuel : Nat) (p : Ptr),
    deleteAtEnd.loop h fuel p = DeleteFromEnd.loop h fuel p
  | 0, _ => rfl
  | fuel + 1, p => by
    simp only [deleteAtEnd.loop, DeleteFromEnd.loop, deleteAtEnd_loop_eq h fuel]

theorem deleteAtEnd_eq_of_ne (fuel : Nat) (head : Ptr) (s : State) (hh : head ≠ none) :
    deleteAtEnd fuel head s = DeleteFromEnd fuel head s := by
  simp only [deleteAtEnd, DeleteFromEnd, hh, if_false, deleteAtEnd_loop_eq]

/-- C17: `deleteAtEnd` of deletionend.c and `DeleteFromEnd` of linked_list.c agree on
every list: they return the same head and the same heap, holding `xs` without its
last element (the empty list for an empty or a single-element `xs`); each prints its
empty-list line exactly when `xs` is empty and nothing otherwise, so on a non-empty
list the two results are equal. -/
theorem deleteAtEnd_agrees_with_DeleteFromEnd (s : State) (head : Ptr) (as : List Nat)
    (xs : List Int) (fuel : Nat) (hl : isList s.heap head as xs) (hf : xs.length ≤ fuel) :
    ∃ head' s1 s2, deleteAtEnd fuel head s = some (head', s1) ∧
      DeleteFromEnd fuel head s = some (head', s2) ∧
      s1.heap = s2.heap ∧ isList s1.heap head' as.dropLast xs.dropLast ∧
      (s1.out = s.out ++ ["The List Is Empty, Nothing To Delete.\n"] ↔ xs = []) ∧
      (s2.out = s.out ++ ["List is empty, nothing to delete.\n"] ↔ xs = []) ∧
      (xs ≠ [] → s1 = s2 ∧ s1.out = s.out) := by
  have hlen := isList_length hl
  by_cases hxs : xs = []
  · subst hxs
    have has : as = [] := List.length_eq_zero.1 hlen
    subst has
    have hh : head = none := (isList_none_iff hl).2 rfl
    subst hh
    refine ⟨none, s.print "The List Is Empty, Nothing To Delete.\n",
      s.print "List is empty, nothing to delete.\n", by simp [deleteAtEnd],
      by simp [DeleteFromEnd], rfl, hl, ?_, ?_, fun h => absurd rfl h⟩
    · simp [State.print]
    · simp [State.print]
  · have has : as ≠ [] := isList_ne_nil hl hxs
    have hh : head ≠ none := fun e => has ((isList_none_iff hl).1 e)
    obtain ⟨head', s', hrun, hout, hrep⟩ := DeleteFromEnd_spec fuel hl has (by omega)
    have hne : ∀ msg : String, ¬ s'.out = s.out ++ [msg] := by
      intro msg h
      rw [hout] at h
      have := congrArg List.length h
      simp at this
    refine ⟨head', s', s', by rw [deleteAtEnd_eq_of_ne fuel head s hh, hrun], hrun, rfl, hrep,
      ⟨fun h => absurd h (hne _), fun h => absurd h hxs⟩,
      ⟨fun h => absurd h (hne _), fun h => absurd h hxs⟩, fun _ => ⟨rfl, hout⟩⟩

/-- C17 at the list `[1,2,3]`: both return `[1,2]`. -/
theorem deleteAtEnd_agrees_with_DeleteFromEnd_witness :
    isList state123.heap (some 10) [10, 20, 30] [1, 2, 3] ∧
    ∃ head' s1 s2, deleteAtEnd 3 (some 10) state123 = some (head', s1) ∧
      DeleteFromEnd 3 (some 10) state123 = some (head', s2) ∧
      s1.heap = s2.heap ∧ isList s1.heap head' [10, 20] [1, 2] ∧
      (s1.out = ["The List Is Empty, Nothing To Delete.\n"] ↔ ([1, 2, 3] : List Int) = []) ∧
      (s2.out = ["List is empty, nothing to delete.\n"] ↔ ([1, 2, 3] : List Int) = []) ∧
      (([1, 2, 3] : List Int) ≠ [] → s1 = s2 ∧ s1.out = []) :=
  ⟨by decide, deleteAtEnd_agrees_with_DeleteFromEnd state123 (some 10) [10, 20, 30] [1, 2, 3] 3
    (by decide) (by decide)⟩

end DeletionEnd

namespace DoubleLL

@[simp] theorem DHeap_set_same (h : Heap) (a : Nat) (n : Node) : h.set a n a = some n := by
  simp [Heap.set]

theorem DHeap_set_other (h : Heap) {a b : Nat} (n : Node) (hb : b ≠ a) :
    h.set a n b = h b := by
  simp [Heap.set, hb]

theorem forward_set (h : Heap) (a : Nat) (c : Node) :
    forward (h.set a c) = LinkedList.Heap.set (forward h) a ⟨c.data, c.next⟩ := by
  funext b
  by_cases hb : b = a <;> simp [forward, Heap.set, LinkedList.Heap.set, hb]

theorem forward_none {h : Heap} {a : Nat} (ha : h a = none) : forward h a = none := by
  simp [forward, ha]

theorem forward_some {h : Heap} {a : Nat} {x : Int} {nx : Option Nat}
    (hf : forward h a = some ⟨x, nx⟩) : ∃ p, h a = some ⟨x, nx, p⟩ := by
  cases hc : h a with
  | none => simp [forward, hc] at hf
  | some c =>
    obtain ⟨d, n, p⟩ := c
    simp [forward, hc] at hf
    exact ⟨p, by simp [hf.1, hf.2]⟩

theorem getNext_forward (h : Heap) (p : Ptr) :
    getNext h p = LinkedList.getNext (forward h) p := by
  cases p with
  | none => rfl
  | some a => cases hc : h a <;> simp [getNext, LinkedList.getNext, forward, hc]

theorem insertAtEnd_loop_forward (h : Heap) : ∀ (fuel : Nat) (p : Ptr),
    insertAtEnd.loop h fuel p = LinkedList.InsertAtEnd.loop (forward h) fuel p
  | 0, _ => rfl
  | fuel + 1, p => by
    simp only [insertAtEnd.loop, LinkedList.InsertAtEnd.loop, getNext_forward,
      insertAtEnd_loop_forward h fuel]

/-- Every cell of a chain is allocated. -/
theorem isChain_alloc {h : Heap} {head : Ptr} {as : List Nat} {xs : List Int}
    (hc : isChain h head as xs) : ∀ b ∈ as, h b ≠ none := by
  intro b hb hn
  exact LinkedList.isSeg_alloc hc b hb (forward_none hn)

/-- The list made of one fresh cell. -/
theorem single_cell (h : Heap) (a : Nat) (d : Int) :
    isChain (h.set a ⟨d, none, none⟩) (some a) [a] [d] ∧
    backLinked (h.set a ⟨d, none, none⟩) (some a) [a] := by
  refine ⟨?_, ?_, ?_⟩
  · refine (LinkedList.isSeg_cons _ _ _ _ _ _ _).2 ⟨rfl, none, ?_, by simp⟩
    simp [forward]
  · intro b hb
    cases hb
    simp
  · intro x hx y hy
    simp at hx
    subst hx
    simp at hy

theorem insertAtBeginning_spec {h : Heap} {head : Ptr} {as : List Nat} {xs : List Int}
    {a : Nat} (d : Int) (hc : isChain h head as xs) (hb : backLinked h head as)
    (ha : h a = none) :
    ∃ h1, insertAtBeginning (some a) head d h = some (some a, h1) ∧
      isChain h1 (some a) (a :: as) (d :: xs) ∧ backLinked h1 (some a) (a :: as) := by
  by_cases hne : as = []
  · subst hne
    have hxs : xs = [] := List.length_eq_zero.1 (LinkedList.isList_length hc).symm
    subst hxs
    have hh : head = none := (LinkedList.isList_none_iff hc).2 rfl
    subst hh
    exact ⟨h.set a ⟨d, none, none⟩, by simp [insertAtBeginning, createNode],
      (single_cell h a d).1, (single_cell h a d).2⟩
  · obtain ⟨b, as', x, xs', nx, rfl, rfl, rfl, hfb, ht⟩ := LinkedList.isList_cons_inv hc hne
    obtain ⟨p, hcb⟩ := forward_some hfb
    have hp : p = none := by
      have := hb.1 b rfl
      simpa [hcb] using this
    subst hp
    have hba : b ≠ a := by rintro rfl; simp [hcb] at ha
    have hfresh : ∀ z, h z ≠ none → z ≠ a := by rintro z hz rfl; exact hz ha
    refine ⟨((h.set a ⟨d, none, none⟩).set a ⟨d, some b, none⟩).set b ⟨x, nx, some a⟩, ?_, ?_,
      ?_, ?_⟩
    · simp [insertAtBeginning, createNode, setNext, setPrev, DHeap_set_other _ _ hba, hcb]
    · refine (LinkedList.isSeg_cons _ _ _ _ _ _ _).2 ⟨rfl, some b, ?_, ?_⟩
      · simp [forward, DHeap_set_other _ _ hba.symm]
      · refine LinkedList.isSeg_congr ?_ hc
        intro z hz
        by_cases hzb : z = b
        · subst hzb; simp [forward, hcb]
        · have hza : z ≠ a := hfresh z (isChain_alloc hc z hz)
          simp [forward, DHeap_set_other _ _ hzb, DHeap_set_other _ _ hza]
    · intro z hz
      cases hz
      simp [DHeap_set_other _ _ hba.symm]
    · intro z hz y hy
      have hyprev : ∀ w ∈ b :: as', y ∈ (h w).bind Node.next →
          (((h.set a ⟨d, none, none⟩).set a ⟨d, some b, none⟩).set b ⟨x, nx, some a⟩ y).map
            Node.prev = some (some w) := by
        intro w hw hyw
        have hold := hb.2 w hw y hyw
        have hyalloc : h y ≠ none := by intro e; simp [e] at hold
        have hya : y ≠ a := hfresh y hyalloc
        have hyb : y ≠ b := by
          rintro rfl
          simp [hcb] at hold
        rw [DHeap_set_other _ _ hyb, DHeap_set_other _ _ hya, DHeap_set_other _ _ hya]
        exact hold
      rcases List.mem_cons.1 hz with rfl | hz'
      · simp [DHeap_set_other _ _ hba.symm] at hy
        subst hy
        simp
      · by_cases hzb : z = b
        · subst hzb
          refine hyprev z hz' ?_
          simpa [hcb] using hy
        · have hza : z ≠ a := hfresh z (isChain_alloc hc z hz')
          refine hyprev z hz' ?_
          simpa [DHeap_set_other _ _ hzb, DHeap_set_other _ _ hza] using hy

theorem insertAtEnd_spec (fuel : Nat) {h : Heap} {head : Ptr} {as : List Nat}
    {xs : List Int} {a : Nat} (d : Int) (hc : isChain h head as xs)
    (hb : backLinked h head as) (ha : h a = none) (hf : as.length ≤ fuel) :
    ∃ head2 h2, insertAtEnd fuel (some a) head d h = some (head2, h2) ∧
      isChain h2 head2 (as ++ [a]) (xs ++ [d]) ∧ backLinked h2 head2 (as ++ [a]) ∧
      (as ≠ [] → head2 = head) := by
  by_cases hne : as = []
  · subst hne
    have hxs : xs = [] := List.length_eq_zero.1 (LinkedList.isList_length hc).symm
    subst hxs
    have hh : head = none := (LinkedList.isList_none_iff hc).2 rfl
    subst hh
    exact ⟨some a, h.set a ⟨d, none, none⟩, by simp [insertAtEnd, createNode],
      (single_cell h a d).1, (single_cell h a d).2, fun e => absurd rfl e⟩
  · have hhead : head ≠ none := fun e => hne ((LinkedList.isList_none_iff hc).1 e)
    have hfa : forward h a = none := forward_none ha
    -- the singly linked view of the same insertion
    obtain ⟨t, x, hk, hft, hrun⟩ :=
      LinkedList.InsertAtEnd_run (s := ⟨forward h, []⟩) d hc hne hfa hf
    obtain ⟨head', s', hrun', -, hrep, -, -⟩ :=
      LinkedList.InsertAtEnd_spec fuel (s := ⟨forward h, []⟩) d hc hfa hf
    rw [hrun] at hrun'
    cases hrun'
    simp only at hrep
    obtain ⟨p, hct⟩ := forward_some hft
    have hta : t ≠ a := by rintro rfl; simp [hct] at ha
    have hfresh : ∀ z, h z ≠ none → z ≠ a := by rintro z hz rfl; exact hz ha
    have hl1 : LinkedList.isList (forward (h.set a ⟨d, none, none⟩)) head as xs := by
      rw [forward_set]
      exact LinkedList.isList_fresh _ hc hfa
    have hloop : insertAtEnd.loop (h.set a ⟨d, none, none⟩) fuel head = some (some t) := by
      rw [insertAtEnd_loop_forward, LinkedList.InsertAtEnd_loop_eq fuel hl1 hne hf, hk]
    refine ⟨head, ((h.set a ⟨d, none, none⟩).set t ⟨x, some a, p⟩).set a ⟨d, none, some t⟩,
      ?_, ?_, ?_, fun _ => rfl⟩
    · simp [insertAtEnd, createNode, hhead, hloop, setNext, setPrev, DHeap_set_other _ _ hta,
        DHeap_set_other _ _ hta.symm, hct]
    · refine LinkedList.isSeg_congr ?_ hrep
      intro z _
      by_cases hza : z = a
      · subst hza
        simp [forward, LinkedList.Heap_set_other _ _ hta.symm]
      · by_cases hzt : z = t
        · subst hzt
          simp [forward, DHeap_set_other _ _ hza]
        · simp [forward, DHeap_set_other _ _ hza, DHeap_set_other _ _ hzt,
            LinkedList.Heap_set_other _ _ hza, LinkedList.Heap_set_other _ _ hzt]
    · constructor
      · intro b0 hb0
        have hold := hb.1 b0 hb0
        have hb0a : b0 ≠ a := hfresh b0 (by intro e; simp [e] at hold)
        by_cases hbt : b0 = t
        · subst hbt
          simp [DHeap_set_other _ _ hb0a]
          simpa [hct] using hold
        · simpa [DHeap_set_other _ _ hb0a, DHeap_set_other _ _ hbt] using hold
      · intro z hz y hy
        rcases List.mem_append.1 hz with hz' | hz'
        · have hza : z ≠ a := hfresh z (isChain_alloc hc z hz')
          by_cases hzt : z = t
          · subst hzt
            simp [DHeap_set_other _ _ hza] at hy
            subst hy
            simp
          · have hy' : y ∈ (h z).bind Node.next := by
              simpa [DHeap_set_other _ _ hza, DHeap_set_other _ _ hzt] using hy
            have hold := hb.2 z hz' y hy'
            have hya : y ≠ a := hfresh y (by intro e; simp [e] at hold)
            by_cases hyt : y = t
            · subst hyt
              simp [DHeap_set_other _ _ hya]
              simpa [hct] using hold
            · simpa [DHeap_set_other _ _ hya, DHeap_set_other _ _ hyt] using hold
        · simp at hz'
          subst hz'
          simp at hy

/-- C19: both inserts of doubleLL.c keep the list well formed (allocation succeeding,
`a` being the fresh cell).  If the forward traversal from `head` goes through the
cells `as` holding `xs`, the `prev` of the head is `NULL` and, for every cell `x` with
a successor, `x.next.prev = x`, then the same holds for the list returned by
`insertAtBeginning(head, d)`, whose forward traversal is `d` followed by `xs`, and
for the list returned by `insertAtEnd(head, d)`, whose forward traversal is `xs`
followed by `d`. -/
theorem inserts_keep_back_links (h : Heap) (head : Ptr) (as : List Nat) (xs : List Int)
    (a : Nat) (d : Int) (fuel : Nat)
    (hc : isChain h head as xs) (hb : backLinked h head as) (ha : h a = none)
    (hf : xs.length ≤ fuel) :
    (∃ h1, insertAtBeginning (some a) head d h = some (some a, h1) ∧
      isChain h1 (some a) (a :: as) (d :: xs) ∧ backLinked h1 (some a) (a :: as)) ∧
    (∃ head2 h2, insertAtEnd fuel (some a) head d h = some (head2, h2) ∧
      isChain h2 head2 (as ++ [a]) (xs ++ [d]) ∧ backLinked h2 head2 (as ++ [a])) := by
  have hlen := LinkedList.isList_length hc
  obtain ⟨head2, h2, hrun, hch, hbl, -⟩ := insertAtEnd_spec fuel d hc hb ha (by omega)
  exact ⟨insertAtBeginning_spec d hc hb ha, head2, h2, hrun, hch, hbl⟩

/-- C19 at the list `[1, 2]` and `d = 9`: `[9, 1, 2]` and `[1, 2, 9]`. -/
theorem inserts_keep_back_links_witness :
    isChain heap12 (some 10) [10, 20] [1, 2] ∧ backLinked heap12 (some 10) [10, 20] ∧
    (∃ h1, insertAtBeginning (some 30) (some 10) 9 heap12 = some (some 30, h1) ∧
      isChain h1 (some 30) [30, 10, 20] [9, 1, 2] ∧ backLinked h1 (some 30) [30, 10, 20]) ∧
    (∃ head2 h2, insertAtEnd 2 (some 30) (some 10) 9 heap12 = some (head2, h2) ∧
      isChain h2 head2 [10, 20, 30] [1, 2, 9] ∧ backLinked h2 head2 [10, 20, 30]) :=
  ⟨by decide, by decide, inserts_keep_back_links heap12 (some 10) [10, 20] [1, 2] 30 9 2
    (by decide) (by decide) (by decide) (by decide)⟩

end DoubleLL
